import Mathlib

/-!
# Formal model of groov's waveform analysis core

This file gives a shallow embedding, in Lean 4, of the computational core of
the groov audio application:

* `Cache`: the binary waveform-cache codec of `src/bun/waveformCache.ts`
  (`encodeWaveformBinary` / `decodeWaveformBinary`).  Bytes are modelled as
  `List ℕ` (each entry a byte value) and IEEE-754 single-precision values are
  modelled by their 32-bit patterns (`ℕ < 2^32`), which makes the codec exact:
  the TypeScript code never does float arithmetic on these fields, it only
  stores and reloads them, plus a finiteness test on the scalar fields.

* `Analysis`: the offline analysis pipeline of
  `src/mainview/components/LeftPanel.tsx` (`analyzeBands`, `normalizeBand`,
  `computeMultiBandOnset`, `findBestTempo`, `dynamicProgrammingBeatTrack`,
  `refineBeatsToSamples`, `regularizeBeatGrid`, `analyzeBeatGrid`,
  `analyzeWaveformFromPcm`, `analyzeWaveform`) and the RPC-handler glue of
  `src/bun/index.ts`.  JavaScript numbers are idealized as exact rationals
  (`ℚ`); the transcendental library functions the code calls
  (`Math.cos`, `Math.sin`, `Math.exp`, `Math.sqrt`, `x ** y`, `Math.PI`) are
  taken as parameters (a `MathOps` record), since no claim below depends on
  their values beyond elementary sign facts that IEEE math satisfies.

Theorems named after claim ids settle the spec claims; every definition is a
direct translation of the corresponding TypeScript function.
-/

set_option maxRecDepth 100000

namespace Cache

/-- The four little-endian bytes of a 32-bit unsigned integer, as written by
`Buffer.writeUInt32LE` / `writeFloatLE` (for floats, `n` is the bit pattern). -/
def u32ToBytesLE (n : ℕ) : List ℕ :=
  [n % 256, n / 256 % 256, n / 65536 % 256, n / 16777216 % 256]

/-- Reassemble a 32-bit little-endian value from four bytes
(`DataView.getUint32 (_, true)` / `getFloat32` at the bit-pattern level). -/
def bytesToU32LE (b0 b1 b2 b3 : ℕ) : ℕ :=
  b0 + 256 * b1 + 65536 * b2 + 16777216 * b3

/-- Read a 32-bit little-endian value at byte offset `off`; out-of-range bytes
read as 0 (never exercised by the decoder, which length-checks first). -/
def readU32 (bytes : List ℕ) (off : ℕ) : ℕ :=
  bytesToU32LE (bytes.getD off 0) (bytes.getD (off + 1) 0)
    (bytes.getD (off + 2) 0) (bytes.getD (off + 3) 0)

/-- `Number.isFinite` on a single-precision bit pattern: finite iff the
exponent field (bits 23–30) is not all ones. -/
def f32IsFinite (bits : ℕ) : Bool := (bits / 8388608) % 256 ≠ 255

/-- The quiet-NaN pattern `Buffer.writeFloatLE` stores for `Number.NaN`
(0x7FC00000). -/
def nanBits : ℕ := 0x7FC00000

/-- `WaveformPayload` of `src/shared/rpc.ts`, at the level of the cache codec:
`peaks`/`bands` entries and the three f32 scalars are 32-bit float patterns,
`bpm` is `null`able, `beatsPerBar` is an integer. -/
structure WaveformPayload where
  peaks : List ℕ
  bands : List ℕ
  bpm : Option ℕ
  bpmConfidence : ℕ
  beatOffset : ℕ
  beatsPerBar : ℕ
deriving DecidableEq

/-- The fixed 24-byte header written by `encodeWaveformBinary`
(`waveformCache.ts`, lines 19–25): `peaksLen:u32, bandsLen:u32,
bpm:f32 (NaN if null), bpmConfidence:f32, beatOffset:f32, beatsPerBar:u32`,
all little-endian. -/
def headerBytes (p : WaveformPayload) : List ℕ :=
  u32ToBytesLE p.peaks.length ++ u32ToBytesLE p.bands.length ++
    u32ToBytesLE (p.bpm.getD nanBits) ++ u32ToBytesLE p.bpmConfidence ++
    u32ToBytesLE p.beatOffset ++ u32ToBytesLE p.beatsPerBar

/-- `encodeWaveformBinary` (`waveformCache.ts`, lines 16–33):
`Buffer.concat([header, peaksBytes, bandsBytes])`. -/
def encodeWaveformBinary (p : WaveformPayload) : List ℕ :=
  headerBytes p ++
    ((p.peaks.map u32ToBytesLE).flatten ++ (p.bands.map u32ToBytesLE).flatten)

/-- Read `count` consecutive f32 bit patterns starting at byte offset `off`
(the `new Float32Array(buffer.slice ...)` reads of the decoder). -/
def readF32List (bytes : List ℕ) (off count : ℕ) : List ℕ :=
  (List.range count).map (fun i => readU32 bytes (off + 4 * i))

/-- `decodeWaveformBinary` (`waveformCache.ts`, lines 35–75). -/
def decodeWaveformBinary (bytes : List ℕ) : Option WaveformPayload :=
  if bytes.length < 24 then none
  else
    let peaksLength := readU32 bytes 0
    let bandsLength := readU32 bytes 4
    let bpmRaw := readU32 bytes 8
    let bpmConfidence := readU32 bytes 12
    let beatOffset := readU32 bytes 16
    let beatsPerBar := readU32 bytes 20
    let expectedBytes := 24 + (peaksLength + bandsLength) * 4
    if bytes.length ≠ expectedBytes then none
    else
      some
        { peaks := readF32List bytes 24 peaksLength
          bands := readF32List bytes (24 + 4 * peaksLength) bandsLength
          bpm := if f32IsFinite bpmRaw then some bpmRaw else none
          bpmConfidence := if f32IsFinite bpmConfidence then bpmConfidence else 0
          beatOffset := if f32IsFinite beatOffset then beatOffset else 0
          beatsPerBar := max 1 (if beatsPerBar = 0 then 4 else beatsPerBar) }

lemma length_u32ToBytesLE (n : ℕ) : (u32ToBytesLE n).length = 4 := rfl

lemma readU32_prefix (n : ℕ) (rest : List ℕ) (h : n < 2 ^ 32) :
    readU32 (u32ToBytesLE n ++ rest) 0 = n := by
  simp only [u32ToBytesLE, List.cons_append, List.nil_append, readU32,
    bytesToU32LE, List.getD_cons_zero, List.getD_cons_succ]
  omega

lemma readU32_append_right (l rest : List ℕ) (k : ℕ) (h : l.length ≤ k) :
    readU32 (l ++ rest) k = readU32 rest (k - l.length) := by
  unfold readU32
  rw [List.getD_append_right _ _ _ _ h,
    List.getD_append_right _ _ _ _ (by omega : l.length ≤ k + 1),
    List.getD_append_right _ _ _ _ (by omega : l.length ≤ k + 2),
    List.getD_append_right _ _ _ _ (by omega : l.length ≤ k + 3),
    show k + 1 - l.length = k - l.length + 1 by omega,
    show k + 2 - l.length = k - l.length + 2 by omega,
    show k + 3 - l.length = k - l.length + 3 by omega]

lemma readU32_skip4 (n : ℕ) (rest : List ℕ) (k : ℕ) :
    readU32 (u32ToBytesLE n ++ rest) (4 + k) = readU32 rest k := by
  have h := readU32_append_right (u32ToBytesLE n) rest (4 + k)
    (by rw [length_u32ToBytesLE]; omega)
  rwa [length_u32ToBytesLE, show 4 + k - 4 = k by omega] at h

lemma readU32_append_left (l rest : List ℕ) (k : ℕ) (h : k + 3 < l.length) :
    readU32 (l ++ rest) k = readU32 l k := by
  unfold readU32
  rw [List.getD_append _ _ _ _ (by omega), List.getD_append _ _ _ _ (by omega),
    List.getD_append _ _ _ _ (by omega), List.getD_append _ _ _ _ (by omega)]

lemma length_flattenF32 (xs : List ℕ) :
    ((xs.map u32ToBytesLE).flatten).length = 4 * xs.length := by
  induction xs with
  | nil => simp
  | cons x xs ih =>
      simp only [List.map_cons, List.flatten_cons, List.length_append, ih,
        length_u32ToBytesLE, List.length_cons]
      omega

lemma readF32List_append_right (l rest : List ℕ) (off count : ℕ)
    (h : l.length ≤ off) :
    readF32List (l ++ rest) off count = readF32List rest (off - l.length) count := by
  unfold readF32List
  refine List.map_congr_left fun i _ => ?_
  rw [readU32_append_right _ _ _ (by omega)]
  congr 1
  omega

lemma readF32List_flatten (xs : List ℕ) (rest : List ℕ)
    (hx : ∀ x ∈ xs, x < 2 ^ 32) :
    readF32List ((xs.map u32ToBytesLE).flatten ++ rest) 0 xs.length = xs := by
  induction xs generalizing rest with
  | nil => rfl
  | cons x xs ih =>
      have hassoc : (((x :: xs).map u32ToBytesLE).flatten ++ rest)
          = u32ToBytesLE x ++ ((xs.map u32ToBytesLE).flatten ++ rest) := by
        simp [List.append_assoc]
      rw [hassoc, List.length_cons, readF32List, List.range_succ_eq_map,
        List.map_cons]
      congr 1
      · simpa using readU32_prefix x _ (hx x (List.mem_cons_self x xs))
      · rw [List.map_map]
        have hmap : ∀ i ∈ List.range xs.length,
            ((fun i => readU32
                (u32ToBytesLE x ++ ((xs.map u32ToBytesLE).flatten ++ rest))
                (0 + 4 * i)) ∘ Nat.succ) i =
              readU32 ((xs.map u32ToBytesLE).flatten ++ rest) (0 + 4 * i) := by
          intro i _
          have h4 : 0 + 4 * Nat.succ i = 4 + (0 + 4 * i) := by omega
          simp only [Function.comp_apply, h4, readU32_skip4]
        rw [List.map_congr_left hmap]
        exact ih _ (fun y hy => hx y (List.mem_cons_of_mem x hy))

lemma headerBytes_length (p : WaveformPayload) : (headerBytes p).length = 24 := by
  simp [headerBytes, length_u32ToBytesLE]

lemma encode_length (p : WaveformPayload) :
    (encodeWaveformBinary p).length =
      24 + 4 * p.peaks.length + 4 * p.bands.length := by
  unfold encodeWaveformBinary
  rw [List.length_append, List.length_append, headerBytes_length,
    length_flattenF32, length_flattenF32]
  omega

lemma encode_readU32_0 (p : WaveformPayload) (h : p.peaks.length < 2 ^ 32) :
    readU32 (encodeWaveformBinary p) 0 = p.peaks.length := by
  unfold encodeWaveformBinary headerBytes
  simp only [List.append_assoc]
  exact readU32_prefix _ _ h

lemma encode_readU32_4 (p : WaveformPayload) (h : p.bands.length < 2 ^ 32) :
    readU32 (encodeWaveformBinary p) 4 = p.bands.length := by
  unfold encodeWaveformBinary headerBytes
  simp only [List.append_assoc]
  rw [show (4 : ℕ) = 4 + 0 from rfl, readU32_skip4]
  exact readU32_prefix _ _ h

lemma encode_readU32_8 (p : WaveformPayload) (h : p.bpm.getD nanBits < 2 ^ 32) :
    readU32 (encodeWaveformBinary p) 8 = p.bpm.getD nanBits := by
  unfold encodeWaveformBinary headerBytes
  simp only [List.append_assoc]
  rw [show (8 : ℕ) = 4 + 4 from rfl, readU32_skip4,
    show (4 : ℕ) = 4 + 0 from rfl, readU32_skip4]
  exact readU32_prefix _ _ h

lemma encode_readU32_12 (p : WaveformPayload) (h : p.bpmConfidence < 2 ^ 32) :
    readU32 (encodeWaveformBinary p) 12 = p.bpmConfidence := by
  unfold encodeWaveformBinary headerBytes
  simp only [List.append_assoc]
  rw [show (12 : ℕ) = 4 + 8 from rfl, readU32_skip4,
    show (8 : ℕ) = 4 + 4 from rfl, readU32_skip4,
    show (4 : ℕ) = 4 + 0 from rfl, readU32_skip4]
  exact readU32_prefix _ _ h

lemma encode_readU32_16 (p : WaveformPayload) (h : p.beatOffset < 2 ^ 32) :
    readU32 (encodeWaveformBinary p) 16 = p.beatOffset := by
  unfold encodeWaveformBinary headerBytes
  simp only [List.append_assoc]
  rw [show (16 : ℕ) = 4 + 12 from rfl, readU32_skip4,
    show (12 : ℕ) = 4 + 8 from rfl, readU32_skip4,
    show (8 : ℕ) = 4 + 4 from rfl, readU32_skip4,
    show (4 : ℕ) = 4 + 0 from rfl, readU32_skip4]
  exact readU32_prefix _ _ h

lemma encode_readU32_20 (p : WaveformPayload) (h : p.beatsPerBar < 2 ^ 32) :
    readU32 (encodeWaveformBinary p) 20 = p.beatsPerBar := by
  unfold encodeWaveformBinary headerBytes
  simp only [List.append_assoc]
  rw [show (20 : ℕ) = 4 + 16 from rfl, readU32_skip4,
    show (16 : ℕ) = 4 + 12 from rfl, readU32_skip4,
    show (12 : ℕ) = 4 + 8 from rfl, readU32_skip4,
    show (8 : ℕ) = 4 + 4 from rfl, readU32_skip4,
    show (4 : ℕ) = 4 + 0 from rfl, readU32_skip4]
  exact readU32_prefix _ _ h

lemma encode_readPeaks (p : WaveformPayload) (hpk : ∀ x ∈ p.peaks, x < 2 ^ 32) :
    readF32List (encodeWaveformBinary p) 24 p.peaks.length = p.peaks := by
  unfold encodeWaveformBinary
  rw [readF32List_append_right _ _ _ _ (by rw [headerBytes_length])]
  rw [headerBytes_length]
  simpa using readF32List_flatten p.peaks _ hpk

lemma encode_readBands (p : WaveformPayload)
    (hbd : ∀ x ∈ p.bands, x < 2 ^ 32) :
    readF32List (encodeWaveformBinary p) (24 + 4 * p.peaks.length)
      p.bands.length = p.bands := by
  unfold encodeWaveformBinary
  rw [readF32List_append_right _ _ _ _ (by rw [headerBytes_length]; omega)]
  rw [headerBytes_length, show 24 + 4 * p.peaks.length - 24 = 4 * p.peaks.length by omega]
  rw [readF32List_append_right _ _ _ _ (by rw [length_flattenF32])]
  rw [length_flattenF32, Nat.sub_self]
  have := readF32List_flatten p.bands [] hbd
  simpa using this

lemma nanBits_not_finite : f32IsFinite nanBits = false := by decide

/-- **C1.** Encoding a `WaveformPayload` with `encodeWaveformBinary` (24-byte
header followed by little-endian f32 peaks then bands) and decoding the bytes
with `decodeWaveformBinary` reproduces bit-identical `peaks`/`bands` arrays and
field-equal `bpm`, `bpmConfidence`, `beatOffset` and `beatsPerBar`, a null
`bpm` being stored as NaN and decoded back to null.  The hypotheses are the
data-model invariants of such a payload: array entries and lengths fit in 32
bits, the scalar floats are finite, and `beatsPerBar` is a positive integer. -/
theorem waveform_binary_roundtrip (p : WaveformPayload)
    (hpl : p.peaks.length < 2 ^ 32) (hbl : p.bands.length < 2 ^ 32)
    (hpk : ∀ x ∈ p.peaks, x < 2 ^ 32) (hbd : ∀ x ∈ p.bands, x < 2 ^ 32)
    (hbpm : ∀ b, p.bpm = some b → b < 2 ^ 32 ∧ f32IsFinite b = true)
    (hconf : p.bpmConfidence < 2 ^ 32) (hconff : f32IsFinite p.bpmConfidence = true)
    (hoff : p.beatOffset < 2 ^ 32) (hofff : f32IsFinite p.beatOffset = true)
    (hbpb : 1 ≤ p.beatsPerBar) (hbpb32 : p.beatsPerBar < 2 ^ 32) :
    decodeWaveformBinary (encodeWaveformBinary p) = some p := by
  have h8bits : p.bpm.getD nanBits < 2 ^ 32 := by
    cases hb : p.bpm with
    | none => simp [nanBits]
    | some b => simpa using (hbpm b hb).1
  have h0 := encode_readU32_0 p hpl
  have h4 := encode_readU32_4 p hbl
  have h8 := encode_readU32_8 p h8bits
  have h12 := encode_readU32_12 p hconf
  have h16 := encode_readU32_16 p hoff
  have h20 := encode_readU32_20 p hbpb32
  have hlen := encode_length p
  rw [decodeWaveformBinary]
  simp only [h0, h4, h8, h12, h16, h20, hlen]
  rw [if_neg (by omega), if_neg (by omega)]
  rw [encode_readPeaks p hpk, encode_readBands p hbd]
  obtain ⟨pk, bd, bpm, conf, off, bpb⟩ := p
  simp only [Option.some.injEq, WaveformPayload.mk.injEq, true_and] at *
  cases hb : bpm with
  | none =>
      simp [hb, nanBits_not_finite, hconff, hofff,
        show bpb ≠ 0 by omega, Nat.max_eq_right hbpb]
  | some b =>
      simp [hb, (hbpm b hb).2, hconff, hofff,
        show bpb ≠ 0 by omega, Nat.max_eq_right hbpb]

/-- Closed witness for `waveform_binary_roundtrip`: a concrete payload (one
peak, three band values, finite bpm pattern 0x42A00000, confidence pattern
0x3F000000, `beatsPerBar = 4`) round-trips. -/
theorem waveform_binary_roundtrip_witness :
    (∀ x ∈ [(1117782016 : ℕ)], x < 2 ^ 32) ∧ (1 : ℕ) ≤ 4 ∧
      decodeWaveformBinary (encodeWaveformBinary
          ⟨[7], [1, 2, 3], some 1117782016, 1056964608, 0, 4⟩) =
        some ⟨[7], [1, 2, 3], some 1117782016, 1056964608, 0, 4⟩ :=
  ⟨by decide, by decide,
    waveform_binary_roundtrip ⟨[7], [1, 2, 3], some 1117782016, 1056964608, 0, 4⟩
      (by decide) (by decide) (by decide) (by decide)
      (by intro b hb; cases hb; exact ⟨by decide, by decide⟩)
      (by decide) (by decide) (by decide) (by decide) (by decide) (by decide)⟩

/-- **C10.** Any payload `decodeWaveformBinary` returns (for arbitrary stored
bytes) satisfies the data-model field invariants: `bpm` is null whenever the
stored f32 is non-finite, `bpmConfidence` and `beatOffset` decode to 0 whenever
their stored values are non-finite, and `beatsPerBar` is at least 1, a stored
0 decoding to 4. -/
theorem decode_field_invariants (bytes : List ℕ) (p : WaveformPayload)
    (h : decodeWaveformBinary bytes = some p) :
    (f32IsFinite (readU32 bytes 8) = false → p.bpm = none) ∧
      (f32IsFinite (readU32 bytes 12) = false → p.bpmConfidence = 0) ∧
      (f32IsFinite (readU32 bytes 16) = false → p.beatOffset = 0) ∧
      1 ≤ p.beatsPerBar ∧ (readU32 bytes 20 = 0 → p.beatsPerBar = 4) := by
  rw [decodeWaveformBinary] at h
  by_cases h1 : bytes.length < 24
  · rw [if_pos h1] at h; cases h
  rw [if_neg h1] at h
  by_cases h2 : bytes.length ≠ 24 + (readU32 bytes 0 + readU32 bytes 4) * 4
  · rw [if_pos h2] at h; cases h
  rw [if_neg h2] at h
  simp only [Option.some.injEq] at h
  subst h
  refine ⟨fun hf => ?_, fun hf => ?_, fun hf => ?_, ?_, fun hz => ?_⟩
  · simp [hf]
  · simp [hf]
  · simp [hf]
  · simp
  · simp [hz]

/-- Closed witness for `decode_field_invariants`: a 24-byte entry whose bpm
field holds the NaN pattern and whose `beatsPerBar` field holds 0 decodes to a
payload with `bpm = null` and `beatsPerBar = 4`. -/
theorem decode_field_invariants_witness :
    decodeWaveformBinary
        [0, 0, 0, 0, 0, 0, 0, 0, 0, 0, 192, 127,
          0, 0, 0, 0, 0, 0, 0, 0, 0, 0, 0, 0] =
      some ⟨[], [], none, 0, 0, 4⟩ ∧
    (f32IsFinite (readU32
        [0, 0, 0, 0, 0, 0, 0, 0, 0, 0, 192, 127,
          0, 0, 0, 0, 0, 0, 0, 0, 0, 0, 0, 0] 8) = false →
      (⟨[], [], none, 0, 0, 4⟩ : WaveformPayload).bpm = none) :=
  ⟨by decide,
    (decode_field_invariants _ _ (by decide)).1⟩

end Cache

namespace Analysis

/-- The transcendental JavaScript `Math` functions (and `Math.PI`, and the
`**` operator) used by the analysis code, abstracted as parameters over ℚ.
No claim below depends on their values beyond sign facts that IEEE math
satisfies, so the pipeline is a function of this record. -/
structure MathOps where
  pi : ℚ
  cos : ℚ → ℚ
  sin : ℚ → ℚ
  exp : ℚ → ℚ
  sqrt : ℚ → ℚ
  pow : ℚ → ℚ → ℚ

/-- A trivial instantiation of `MathOps` used by concrete witnesses.  Every
call the witness runs evaluates these at arguments where they agree with the
IEEE functions (`sqrt 0 = 0`, `0 ** y = 0`, and cosines that are multiplied
by a zero sample). -/
def qOps : MathOps :=
  { pi := 0, cos := fun _ => 0, sin := fun _ => 0, exp := fun _ => 0,
    sqrt := fun _ => 0, pow := fun _ _ => 0 }

/-- `clamp01` (`LeftPanel.tsx`, line 354). -/
def clamp01 (value : ℚ) : ℚ := min 1 (max 0 value)

/-- `clamp` (`LeftPanel.tsx`, lines 420–421). -/
def clamp (value mn mx : ℚ) : ℚ := max mn (min mx value)

/-- JavaScript's `%` operator on rationals: remainder with the sign of the
dividend (truncated division). -/
def jsMod (a b : ℚ) : ℚ :=
  if 0 ≤ a / b then a - b * (⌊a / b⌋ : ℚ) else a - b * (⌈a / b⌉ : ℚ)

/-- `wrap` (`LeftPanel.tsx`, lines 412–418): wrap `value` into `[0, period)`. -/
def wrap (value period : ℚ) : ℚ :=
  if period ≤ 0 then value
  else
    let wrapped := jsMod value period
    if wrapped < 0 then wrapped + period else wrapped

/-- `parabolicPeakOffset` (`LeftPanel.tsx`, lines 423–433). -/
def parabolicPeakOffset (left center right : ℚ) : ℚ :=
  let denominator := left - 2 * center + right
  if |denominator| < 1 / 100000000 then 0
  else clamp ((1 / 2) * (left - right) / denominator) (-(1 / 2)) (1 / 2)

/-- The `while (bpm < 75) bpm *= 2` loop of `analyzeBeatGrid`
(`LeftPanel.tsx`, lines 849 and 879).  The JavaScript loop diverges for
`bpm ≤ 0`; this translation stops there instead (that guard is part of the
recursion condition), which is the only divergence from the source. -/
def foldUp (x : ℚ) : ℚ :=
  if h : 0 < x ∧ x < 75 then foldUp (2 * x) else x
termination_by (⌈(75 : ℚ) / x⌉).toNat
decreasing_by
  obtain ⟨hx, hlt⟩ := h
  have hy : (1 : ℚ) < 75 / x := (one_lt_div hx).mpr hlt
  have h2 : (2 : ℤ) ≤ ⌈(75 : ℚ) / x⌉ := by
    have h1 : (1 : ℤ) < ⌈(75 : ℚ) / x⌉ := Int.lt_ceil.mpr (by exact_mod_cast hy)
    omega
  have h2q : (2 : ℚ) ≤ ((⌈(75 : ℚ) / x⌉ : ℤ) : ℚ) := by exact_mod_cast h2
  have hhalf : ⌈(75 : ℚ) / (2 * x)⌉ ≤ ⌈(75 : ℚ) / x⌉ - 1 := by
    rw [Int.ceil_le]
    push_cast
    rw [div_le_iff₀ (by positivity)]
    nlinarith [mul_nonneg (sub_nonneg.mpr h2q) hx.le,
      (div_le_iff₀ hx).mp (Int.le_ceil ((75 : ℚ) / x))]
  omega

/-- The `while (bpm > 185) bpm /= 2` loop of `analyzeBeatGrid`
(`LeftPanel.tsx`, lines 850 and 880). -/
def foldDown (x : ℚ) : ℚ :=
  if h : 185 < x then foldDown (x / 2) else x
termination_by (⌈x / 185⌉).toNat
decreasing_by
  have hy : (1 : ℚ) < x / 185 := by rw [lt_div_iff₀ (by norm_num)]; linarith
  have h2 : (2 : ℤ) ≤ ⌈x / 185⌉ := by
    have h1 : (1 : ℤ) < ⌈x / 185⌉ := Int.lt_ceil.mpr (by exact_mod_cast hy)
    omega
  have h2q : (2 : ℚ) ≤ ((⌈x / 185⌉ : ℤ) : ℚ) := by exact_mod_cast h2
  have hhalf : ⌈x / 2 / 185⌉ ≤ ⌈x / 185⌉ - 1 := by
    rw [Int.ceil_le]
    push_cast
    rw [div_div, div_le_iff₀ (by norm_num : (0 : ℚ) < 2 * 185)]
    nlinarith [(div_le_iff₀ (by norm_num : (0 : ℚ) < 185)).mp
        (Int.le_ceil (x / 185))]
  omega

/-- The octave folding applied to the BPM in `analyzeBeatGrid`
(`LeftPanel.tsx`, lines 849–850 and 879–880): double while below 75, then
halve while above 185. -/
def foldBpm (x : ℚ) : ℚ := foldDown (foldUp x)

/-- `hopSize` as derived inside `analyzeBeatGrid` (`LeftPanel.tsx`, line 833):
`Math.floor(sampleRate / 200)`. -/
def beatGridHopSize (sampleRate : ℚ) : ℕ := (⌊sampleRate / 200⌋).toNat

/-- The hop-size derivation in the *spec's* words (section 4.3 of the spec):
`round(sampleRate / 200)`.  Stated only to compare with the source's
`beatGridHopSize`. -/
def beatGridHopSizeSpec (sampleRate : ℚ) : ℤ := round (sampleRate / 200)

lemma foldUp_spec (x : ℚ) (hx : 0 < x) : 75 ≤ foldUp x := by
  induction x using foldUp.induct with
  | case1 x h ih =>
      rw [foldUp, dif_pos h]
      exact ih (by linarith [h.1])
  | case2 x h =>
      rw [foldUp, dif_neg h]
      rcases not_and_or.mp h with h1 | h1
      · exact absurd hx h1
      · linarith [not_lt.mp h1]

lemma foldDown_spec (x : ℚ) (hx : 75 ≤ x) :
    75 ≤ foldDown x ∧ foldDown x ≤ 185 := by
  induction x using foldDown.induct with
  | case1 x h ih =>
      rw [foldDown, dif_pos h]
      exact ih (by linarith)
  | case2 x h =>
      rw [foldDown, dif_neg h]
      exact ⟨hx, not_lt.mp h⟩

/-- **C5 (amended).** After the octave folding of `analyzeBeatGrid`
(double while < 75, halve while > 185), any positive BPM value lands in the
*closed* interval `[75, 185]` — not the half-open `[75, 185)` the claim
states; 185 is a fixed point of the fold. -/
theorem foldBpm_mem_Icc (x : ℚ) (hx : 0 < x) :
    75 ≤ foldBpm x ∧ foldBpm x ≤ 185 :=
  foldDown_spec _ (foldUp_spec x hx)

/-- Witness for `foldBpm_mem_Icc` at the concrete pre-fold BPM 300
(`foldBpm 300 = 150`). -/
theorem foldBpm_mem_Icc_witness :
    (0 : ℚ) < 300 ∧ 75 ≤ foldBpm 300 ∧ foldBpm 300 ≤ 185 :=
  ⟨by norm_num, foldBpm_mem_Icc 300 (by norm_num)⟩

/-- **C5 (counterexample).** The pre-fold BPM value 185 (reachable: the fold
input is `60·frameRate/periodFrames`, resp. `60·sampleRate/period`, which can
equal 185 exactly) is a fixed point of the folding, so the folded BPM is 185
itself, which is *not* in the half-open interval `[75, 185)` the claim
asserts. -/
theorem foldBpm_at_185 : foldBpm 185 = 185 ∧ ¬ foldBpm 185 < 185 := by
  have h : foldBpm 185 = 185 := by
    rw [foldBpm, foldUp, dif_neg (by norm_num), foldDown, dif_neg (by norm_num)]
  exact ⟨h, by rw [h]; norm_num⟩

/-- **C4 (amended).** `analyzeBeatGrid` derives its onset hop size as
`floor(sampleRate/200)` — not `round(sampleRate/200)` as the claim states;
the two agree exactly when the fractional part of `sampleRate/200` is
below 1/2. -/
theorem beatGridHopSize_eq_floor (sampleRate : ℚ) (h : 0 ≤ sampleRate) :
    (beatGridHopSize sampleRate : ℤ) = ⌊sampleRate / 200⌋ ∧
      ((beatGridHopSize sampleRate : ℤ) = beatGridHopSizeSpec sampleRate ↔
        Int.fract (sampleRate / 200) < 1 / 2) := by
  have hfl : (0 : ℤ) ≤ ⌊sampleRate / 200⌋ :=
    Int.floor_nonneg.mpr (by positivity)
  have h1 : (beatGridHopSize sampleRate : ℤ) = ⌊sampleRate / 200⌋ :=
    Int.toNat_of_nonneg hfl
  refine ⟨h1, ?_⟩
  have hf : Int.fract (sampleRate / 200) =
      sampleRate / 200 - (⌊sampleRate / 200⌋ : ℚ) := rfl
  rw [h1, beatGridHopSizeSpec, round_eq]
  constructor
  · intro heq
    by_contra hge
    push_neg at hge
    rw [hf] at hge
    have hle : ((⌊sampleRate / 200⌋ + 1 : ℤ) : ℚ) ≤ sampleRate / 200 + 1 / 2 := by
      push_cast
      linarith
    have := Int.le_floor.mpr hle
    omega
  · intro hlt
    rw [hf] at hlt
    symm
    rw [Int.floor_eq_iff]
    constructor
    · have := Int.floor_le (sampleRate / 200)
      linarith
    · linarith

/-- Witness for `beatGridHopSize_eq_floor` at `sampleRate = 44000`
(hop 220, fractional part 0). -/
theorem beatGridHopSize_eq_floor_witness :
    (0 : ℚ) ≤ 44000 ∧
      ((beatGridHopSize 44000 : ℤ) = ⌊(44000 : ℚ) / 200⌋ ∧
        ((beatGridHopSize 44000 : ℤ) = beatGridHopSizeSpec 44000 ↔
          Int.fract ((44000 : ℚ) / 200) < 1 / 2)) :=
  ⟨by norm_num, beatGridHopSize_eq_floor 44000 (by norm_num)⟩

/-- **C4 (counterexample).** At `sampleRate = 44100` the code's hop size is
`floor(44100/200) = 220`, while the claim's `round(44100/200) = 221`. -/
theorem beatGridHopSize_at_44100 :
    (beatGridHopSize 44100 : ℤ) = 220 ∧ beatGridHopSizeSpec 44100 = 221 ∧
      (beatGridHopSize 44100 : ℤ) ≠ beatGridHopSizeSpec 44100 := by
  have h1 : (beatGridHopSize 44100 : ℤ) = 220 := by
    norm_num [beatGridHopSize]
  have h2 : beatGridHopSizeSpec 44100 = 221 := by
    norm_num [beatGridHopSizeSpec, round_eq]
  exact ⟨h1, h2, by rw [h1, h2]; norm_num⟩

/-! ### Tempo estimator (`findBestTempo`, `LeftPanel.tsx` lines 545–639) -/

/-- `frameRate = sampleRate / hopSize`. -/
def tempoFrameRate (sampleRate : ℚ) (hopSize : ℕ) : ℚ :=
  sampleRate / (hopSize : ℚ)

/-- `minLag = Math.floor((60 * frameRate) / maxBpm)` with `maxBpm = 220`. -/
def tempoMinLag (fr : ℚ) : ℕ := (⌊60 * fr / 220⌋).toNat

/-- `maxLag = Math.floor((60 * frameRate) / minBpm)` with `minBpm = 60`. -/
def tempoMaxLag (fr : ℚ) : ℕ := (⌊60 * fr / 60⌋).toNat

/-- Unbiased autocorrelation at a lag (`LeftPanel.tsx` lines 563–571):
mean of `onset[i]*onset[i-lag]` over the valid overlap. -/
def acf (onset : List ℚ) (lag : ℕ) : ℚ :=
  ((List.range' lag (onset.length - lag)).foldl
      (fun s i => s + onset.getD i 0 * onset.getD (i - lag) 0) 0) /
    ((max 1 (onset.length - lag) : ℕ) : ℚ)

/-- Content of the `acf` Float32Array: filled for lags in
`[minLag, maxLag]`, zero elsewhere. -/
def acfArr (onset : List ℚ) (fr : ℚ) (lag : ℕ) : ℚ :=
  if tempoMinLag fr ≤ lag ∧ lag ≤ tempoMaxLag fr then acf onset lag else 0

/-- One entry of the harmonic comb filter (`LeftPanel.tsx` lines 573–590):
own autocorrelation plus half-weighted half/double lag and quarter-weighted
triple lag when in range, then the genre-prior bias. -/
def combFilterAt (onset : List ℚ) (fr : ℚ) (lag : ℕ) : ℚ :=
  let halfLag := (round ((lag : ℚ) / 2)).toNat
  let doubleLag := lag * 2
  let tripleLag := lag * 3
  let s1 := acfArr onset fr lag
  let s2 := if tempoMinLag fr ≤ halfLag then s1 + acfArr onset fr halfLag * (1 / 2) else s1
  let s3 := if doubleLag ≤ tempoMaxLag fr then s2 + acfArr onset fr doubleLag * (1 / 2) else s2
  let s4 := if tripleLag ≤ tempoMaxLag fr then s3 + acfArr onset fr tripleLag * (1 / 4) else s3
  let bpm := 60 * fr / (lag : ℚ)
  if 100 ≤ bpm ∧ bpm ≤ 140 then s4 * (115 / 100)
  else if 85 ≤ bpm ∧ bpm ≤ 160 then s4 * (105 / 100)
  else s4

/-- Content of the `combFilter` Float32Array: filled for lags in
`[minLag, maxLag]`, zero elsewhere (the code only ever reads it there). -/
def combArr (onset : List ℚ) (fr : ℚ) (lag : ℕ) : ℚ :=
  if tempoMinLag fr ≤ lag ∧ lag ≤ tempoMaxLag fr then combFilterAt onset fr lag
  else 0

/-- `c > s` where `s` is a JavaScript number initialized to `-Infinity`
(modelled as `none`). -/
def gtOpt (c : ℚ) : Option ℚ → Bool
  | none => true
  | some b => decide (b < c)

/-- One step of the best/second-best scan (`LeftPanel.tsx` lines 596–604).
State: `(bestLag, bestScore, secondBestScore)`, scores `-Infinity`-initialized. -/
def tempoScanStep (onset : List ℚ) (fr : ℚ)
    (st : ℕ × Option ℚ × Option ℚ) (lag : ℕ) : ℕ × Option ℚ × Option ℚ :=
  let c := combArr onset fr lag
  if gtOpt c st.2.1 then (lag, some c, st.2.1)
  else if gtOpt c st.2.2 then (st.1, st.2.1, some c)
  else st

/-- The scan over all lags in `[minLag, maxLag]` (`LeftPanel.tsx`
lines 592–604), starting from `bestLag = minLag` and `-Infinity` scores. -/
def tempoScan (onset : List ℚ) (fr : ℚ) : ℕ × Option ℚ × Option ℚ :=
  (List.range' (tempoMinLag fr) (tempoMaxLag fr + 1 - tempoMinLag fr)).foldl
    (tempoScanStep onset fr) (tempoMinLag fr, none, none)

def tempoBestLag (onset : List ℚ) (fr : ℚ) : ℕ := (tempoScan onset fr).1

/-- `bestScore` after the scan (`-Infinity` is unreachable once at least one
lag was scanned, which the degenerate-range guard ensures). -/
def tempoBestScore (onset : List ℚ) (fr : ℚ) : ℚ :=
  ((tempoScan onset fr).2.1).getD 0

def tempoSecondScore (onset : List ℚ) (fr : ℚ) : ℚ :=
  ((tempoScan onset fr).2.2).getD 0

def tempoLeftLag (onset : List ℚ) (fr : ℚ) : ℕ :=
  max (tempoMinLag fr) (tempoBestLag onset fr - 1)

def tempoRightLag (onset : List ℚ) (fr : ℚ) : ℕ :=
  min (tempoMaxLag fr) (tempoBestLag onset fr + 1)

/-- Sub-frame refinement of the best lag by parabolic interpolation
(`LeftPanel.tsx` lines 606–614). -/
def tempoRefinedLag (onset : List ℚ) (fr : ℚ) : ℚ :=
  (tempoBestLag onset fr : ℚ) +
    parabolicPeakOffset (combArr onset fr (tempoLeftLag onset fr))
      (combArr onset fr (tempoBestLag onset fr))
      (combArr onset fr (tempoRightLag onset fr))

/-- `halfLag = Math.round(refinedLag / 2)` (`LeftPanel.tsx` line 616). -/
def tempoHalfLag (onset : List ℚ) (fr : ℚ) : ℕ :=
  (round (tempoRefinedLag onset fr / 2)).toNat

def tempoBpmAtBest (onset : List ℚ) (fr : ℚ) : ℚ :=
  60 * fr / tempoRefinedLag onset fr

def tempoBpmAtHalf (onset : List ℚ) (fr : ℚ) : ℚ :=
  60 * fr / (tempoHalfLag onset fr : ℚ)

/-- `combFilter[halfLag] ?? 0` (`LeftPanel.tsx` line 626). -/
def tempoHalfScore (onset : List ℚ) (fr : ℚ) : ℚ :=
  combArr onset fr (tempoHalfLag onset fr)

/-- `TempoEstimate` (spec §3): fractional period in frames plus confidence. -/
structure TempoEstimate where
  periodFrames : ℚ
  confidence : ℚ
deriving DecidableEq

/-- `findBestTempo` (`LeftPanel.tsx`, lines 545–639).  The nested octave
check (`if (halfLag >= minLag && ...) { if (halfScore > bestScore * 0.7) ... }`
falling through to the contrast-based return) is flattened into one
conjunction, which is equivalent. -/
def findBestTempo (onset : List ℚ) (sampleRate : ℚ) (hopSize : ℕ) :
    TempoEstimate :=
  if tempoMaxLag (tempoFrameRate sampleRate hopSize) ≤
        tempoMinLag (tempoFrameRate sampleRate hopSize) + 1 ∨
      onset.length < tempoMaxLag (tempoFrameRate sampleRate hopSize) * 2 then
    { periodFrames := tempoFrameRate sampleRate hopSize / 2, confidence := 0 }
  else if tempoMinLag (tempoFrameRate sampleRate hopSize) ≤
        tempoHalfLag onset (tempoFrameRate sampleRate hopSize) ∧
      tempoBpmAtBest onset (tempoFrameRate sampleRate hopSize) < 100 ∧
      100 ≤ tempoBpmAtHalf onset (tempoFrameRate sampleRate hopSize) ∧
      tempoBpmAtHalf onset (tempoFrameRate sampleRate hopSize) ≤ 180 ∧
      tempoBestScore onset (tempoFrameRate sampleRate hopSize) * (7 / 10) <
        tempoHalfScore onset (tempoFrameRate sampleRate hopSize) then
    { periodFrames := (tempoHalfLag onset (tempoFrameRate sampleRate hopSize) : ℚ)
      confidence := clamp01 (tempoHalfScore onset (tempoFrameRate sampleRate hopSize) /
        (tempoBestScore onset (tempoFrameRate sampleRate hopSize) + 1 / 1000) * (8 / 10)) }
  else
    { periodFrames := tempoRefinedLag onset (tempoFrameRate sampleRate hopSize)
      confidence := clamp01 ((tempoBestScore onset (tempoFrameRate sampleRate hopSize) -
          tempoSecondScore onset (tempoFrameRate sampleRate hopSize)) /
        (tempoBestScore onset (tempoFrameRate sampleRate hopSize) + 1 / 1000) * 2) }

/-- **C6 (amended).** In `findBestTempo`, whenever the lag range is
non-degenerate, the rounded half of the refined best lag is at least the
minimum lag, the BPM at the refined lag is below 100, the BPM at the half lag
lies in `[100, 180]`, and the comb score at the half lag is *strictly more*
than 70% of the best comb score (the code tests `halfScore > bestScore * 0.7`,
not `≥` as the claim says), the function returns `periodFrames` equal to the
half lag with confidence `clamp01(0.8 · halfScore / (bestScore + 0.001))`. -/
theorem findBestTempo_octave_correction (onset : List ℚ) (sampleRate : ℚ)
    (hopSize : ℕ)
    (hguard : ¬(tempoMaxLag (tempoFrameRate sampleRate hopSize) ≤
        tempoMinLag (tempoFrameRate sampleRate hopSize) + 1 ∨
      onset.length < tempoMaxLag (tempoFrameRate sampleRate hopSize) * 2))
    (h1 : tempoMinLag (tempoFrameRate sampleRate hopSize) ≤
      tempoHalfLag onset (tempoFrameRate sampleRate hopSize))
    (h2 : tempoBpmAtBest onset (tempoFrameRate sampleRate hopSize) < 100)
    (h3 : 100 ≤ tempoBpmAtHalf onset (tempoFrameRate sampleRate hopSize))
    (h4 : tempoBpmAtHalf onset (tempoFrameRate sampleRate hopSize) ≤ 180)
    (h5 : tempoBestScore onset (tempoFrameRate sampleRate hopSize) * (7 / 10) <
      tempoHalfScore onset (tempoFrameRate sampleRate hopSize)) :
    findBestTempo onset sampleRate hopSize =
      { periodFrames := (tempoHalfLag onset (tempoFrameRate sampleRate hopSize) : ℚ)
        confidence := clamp01
          (tempoHalfScore onset (tempoFrameRate sampleRate hopSize) /
            (tempoBestScore onset (tempoFrameRate sampleRate hopSize) + 1 / 1000) *
            (8 / 10)) } := by
  rw [findBestTempo, if_neg hguard, if_pos ⟨h1, h2, h3, h4, h5⟩]

/-- Concrete onset curve exercising the octave-correction branch (44 frames,
spikes at 0, 20 and 30; with `sampleRate = 2200`, `hopSize = 100` the best lag
is 20 and its rounded half 10 carries strictly more than 70% of the best comb
score). -/
def onsetOctave : List ℚ :=
  [384, 0, 0, 0, 0, 0, 0, 0, 0, 0,
   0, 0, 0, 0, 0, 0, 0, 0, 0, 0,
   1, 0, 0, 0, 0, 0, 0, 0, 0, 0,
   100, 0, 0, 0, 0, 0, 0, 0, 0, 0,
   0, 0, 0, 0]

/-- Closed witness for `findBestTempo_octave_correction` on `onsetOctave`. -/
theorem findBestTempo_octave_correction_witness :
    (tempoBestScore onsetOctave (tempoFrameRate 2200 100) * (7 / 10) <
        tempoHalfScore onsetOctave (tempoFrameRate 2200 100)) ∧
      findBestTempo onsetOctave 2200 100 =
        { periodFrames := (tempoHalfLag onsetOctave (tempoFrameRate 2200 100) : ℚ)
          confidence := clamp01
            (tempoHalfScore onsetOctave (tempoFrameRate 2200 100) /
              (tempoBestScore onsetOctave (tempoFrameRate 2200 100) + 1 / 1000) *
              (8 / 10)) } :=
  ⟨of_decide_eq_true (by with_unfolding_all rfl),
    findBestTempo_octave_correction onsetOctave 2200 100
      (of_decide_eq_true (by with_unfolding_all rfl))
      (of_decide_eq_true (by with_unfolding_all rfl))
      (of_decide_eq_true (by with_unfolding_all rfl))
      (of_decide_eq_true (by with_unfolding_all rfl))
      (of_decide_eq_true (by with_unfolding_all rfl))
      (of_decide_eq_true (by with_unfolding_all rfl))⟩

/-- Same shape as `onsetOctave` but with the third spike scaled so that the
half-lag comb score is *exactly* 70% of the best comb score. -/
def onsetOctaveEq : List ℚ :=
  [384, 0, 0, 0, 0, 0, 0, 0, 0, 0,
   0, 0, 0, 0, 0, 0, 0, 0, 0, 0,
   1, 0, 0, 0, 0, 0, 0, 0, 0, 0,
   85, 0, 0, 0, 0, 0, 0, 0, 0, 0,
   0, 0, 0, 0]

/-- **C6 (counterexample).** On `onsetOctaveEq` (sampleRate 2200, hop 100)
every condition of the claim holds — in particular the half-lag comb score is
*at least* (exactly) 70% of the best score — yet `findBestTempo` does *not*
return the half lag, because the code requires strictly more than 70%. -/
theorem findBestTempo_octave_boundary :
    (¬(tempoMaxLag (tempoFrameRate 2200 100) ≤
          tempoMinLag (tempoFrameRate 2200 100) + 1 ∨
        onsetOctaveEq.length < tempoMaxLag (tempoFrameRate 2200 100) * 2)) ∧
      tempoMinLag (tempoFrameRate 2200 100) ≤
        tempoHalfLag onsetOctaveEq (tempoFrameRate 2200 100) ∧
      tempoBpmAtBest onsetOctaveEq (tempoFrameRate 2200 100) < 100 ∧
      100 ≤ tempoBpmAtHalf onsetOctaveEq (tempoFrameRate 2200 100) ∧
      tempoBpmAtHalf onsetOctaveEq (tempoFrameRate 2200 100) ≤ 180 ∧
      tempoBestScore onsetOctaveEq (tempoFrameRate 2200 100) * (7 / 10) ≤
        tempoHalfScore onsetOctaveEq (tempoFrameRate 2200 100) ∧
      (findBestTempo onsetOctaveEq 2200 100).periodFrames ≠
        (tempoHalfLag onsetOctaveEq (tempoFrameRate 2200 100) : ℚ) :=
  of_decide_eq_true (by with_unfolding_all rfl)

/-! ### Dynamic-programming beat tracker (`dynamicProgrammingBeatTrack`,
`LeftPanel.tsx` lines 641–698).  The mutable `score`/`predecessor` arrays are
modelled as functions updated in place; `-1` is the "no predecessor"
sentinel exactly as in the source. -/

/-- The inner predecessor search for frame `i` (`LeftPanel.tsx` lines
661–677): scan `j` from `searchEnd` down to `searchStart`, keeping the best
`(bestPrev, bestPrevScore)`, initialized to `(-1, onset[i])`. -/
def dpSearch (onset : List ℚ) (periodFrames : ℚ) (score : ℕ → ℚ) (i : ℕ) :
    ℤ × ℚ :=
  let minPeriod := periodFrames * (1 - 0.2)
  let maxPeriod := periodFrames * (1 + 0.2)
  let searchStart := (max 0 ⌊(i : ℚ) - maxPeriod⌋).toNat
  let searchEnd := (max 0 ⌊(i : ℚ) - minPeriod⌋).toNat
  ((List.range' searchStart (searchEnd + 1 - searchStart)).reverse).foldl
    (fun (st : ℤ × ℚ) (j : ℕ) =>
      let interval : ℚ := (i : ℚ) - (j : ℚ)
      let deviation := |interval - periodFrames| / periodFrames
      let transitionPenalty := 100 * deviation * deviation
      let candidateScore := score j + onset.getD i 0 - transitionPenalty
      if st.2 < candidateScore then ((j : ℤ), candidateScore) else st)
    (-1, onset.getD i 0)

/-- The forward DP pass after processing frames `1..m`
(`LeftPanel.tsx` lines 653–681): `score` starts as a copy of the onset curve,
`predecessor` as all `-1`. -/
def dpState (onset : List ℚ) (periodFrames : ℚ) : ℕ → (ℕ → ℚ) × (ℕ → ℤ)
  | 0 => (fun k => onset.getD k 0, fun _ => -1)
  | m + 1 =>
      let st := dpState onset periodFrames m
      let r := dpSearch onset periodFrames st.1 (m + 1)
      (Function.update st.1 (m + 1) r.2, Function.update st.2 (m + 1) r.1)

/-- Selection of the globally best cumulative score as the sequence end
(`LeftPanel.tsx` lines 683–688). -/
def dpBestEnd (score : ℕ → ℚ) (n : ℕ) : ℕ :=
  (List.range' 1 (n - 1)).foldl
    (fun best i => if score best < score i then i else best) 0

/-- Backtracking through stored predecessors (`LeftPanel.tsx` lines 690–695).
The JavaScript `while (current >= 0)` loop is given fuel; with the forward
pass's `predecessor[i] < i` invariant (which holds whenever the period is
positive), fuel `n + 1` is never exhausted. -/
def dpBacktrack (pred : ℕ → ℤ) : ℕ → ℤ → List ℕ
  | 0, _ => []
  | fuel + 1, current =>
      if current < 0 then []
      else current.toNat :: dpBacktrack pred fuel (pred current.toNat)

/-- `dynamicProgrammingBeatTrack` (`LeftPanel.tsx` lines 641–698). -/
def dynamicProgrammingBeatTrack (onset : List ℚ) (periodFrames : ℚ) :
    List ℕ :=
  if onset.length < 4 then []
  else
    let st := dpState onset periodFrames (onset.length - 1)
    (dpBacktrack st.2 (onset.length + 1)
      ((dpBestEnd st.1 onset.length : ℕ) : ℤ)).reverse

lemma foldl_preserve {α : Type*} {β : Type*} (P : α → Prop) (f : α → β → α) :
    ∀ (l : List β) (st : α), P st → (∀ a, ∀ b ∈ l, P a → P (f a b)) →
      P (l.foldl f st)
  | [], _, hst, _ => hst
  | x :: xs, st, hst, hstep =>
      foldl_preserve P f xs (f st x) (hstep st x (List.mem_cons_self x xs) hst)
        (fun a b hb ha => hstep a b (List.mem_cons_of_mem x hb) ha)

lemma dpSearch_prev (onset : List ℚ) (periodFrames : ℚ) (score : ℕ → ℚ)
    (i : ℕ) (hp : 0 < periodFrames) (hi : 1 ≤ i) :
    -1 ≤ (dpSearch onset periodFrames score i).1 ∧
      (dpSearch onset periodFrames score i).1 < (i : ℤ) := by
  have hend : ((max 0 ⌊(i : ℚ) - periodFrames * (1 - 0.2)⌋).toNat) < i := by
    have hmp : 0 < periodFrames * (1 - 0.2) := by nlinarith
    have hfl : ⌊(i : ℚ) - periodFrames * (1 - 0.2)⌋ < (i : ℤ) :=
      Int.floor_lt.mpr (by push_cast; linarith)
    omega
  simp only [dpSearch]
  refine foldl_preserve (fun st : ℤ × ℚ => -1 ≤ st.1 ∧ st.1 < (i : ℤ)) _ _ _
    ⟨le_refl _, by omega⟩ ?_
  intro a b hb ha
  have hbi : b < i := by
    rw [List.mem_reverse, List.mem_range'_1] at hb
    omega
  split
  · exact ⟨by omega, by omega⟩
  · exact ha

lemma dpState_pred (onset : List ℚ) (periodFrames : ℚ)
    (hp : 0 < periodFrames) (m : ℕ) :
    ∀ k, -1 ≤ (dpState onset periodFrames m).2 k ∧
      (dpState onset periodFrames m).2 k < (k : ℤ) := by
  induction m with
  | zero => intro k; simp [dpState]; omega
  | succ m ih =>
      intro k
      simp only [dpState]
      rcases eq_or_ne k (m + 1) with hk | hk
      · subst hk
        rw [Function.update_same]
        exact dpSearch_prev onset periodFrames
          (dpState onset periodFrames m).1 (m + 1) hp (by omega)
      · rw [Function.update_noteq hk]
        exact ih k

lemma dpBacktrack_sound (pred : ℕ → ℤ)
    (hpred : ∀ k, -1 ≤ pred k ∧ pred k < (k : ℤ)) :
    ∀ fuel : ℕ, ∀ c : ℤ, c < (fuel : ℤ) →
      List.Chain' (fun a b => b < a) (dpBacktrack pred fuel c) ∧
        ∀ b ∈ dpBacktrack pred fuel c, (b : ℤ) ≤ c := by
  intro fuel
  induction fuel with
  | zero =>
      intro c _
      exact ⟨List.chain'_nil, by intro b hb; cases hb⟩
  | succ fuel ih =>
      intro c hc
      rw [dpBacktrack]
      split
      · exact ⟨List.chain'_nil, by intro b hb; cases hb⟩
      · rename_i hcpos
        push_neg at hcpos
        have hc' := hpred c.toNat
        have hctn : (c.toNat : ℤ) = c := Int.toNat_of_nonneg hcpos
        have hlt : pred c.toNat < c := by omega
        have hrec := ih (pred c.toNat) (by omega)
        constructor
        · rw [List.chain'_cons']
          refine ⟨?_, hrec.1⟩
          intro h hh
          have hmem : h ∈ dpBacktrack pred fuel (pred c.toNat) :=
            List.mem_of_mem_head? hh
          have := hrec.2 h hmem
          omega
        · intro b hb
          rcases List.mem_cons.mp hb with hb | hb
          · omega
          · have := hrec.2 b hb
            omega

lemma dpBestEnd_lt (score : ℕ → ℚ) (n : ℕ) (hn : 1 ≤ n) : dpBestEnd score n < n := by
  unfold dpBestEnd
  refine foldl_preserve (fun best => best < n) _ _ _ hn ?_
  intro a b hb ha
  have : b < n := by
    rw [List.mem_range'_1] at hb
    omega
  split <;> omega

/-- **C7.** For every onset curve and every estimated period greater than 0,
`dynamicProgrammingBeatTrack` returns a list of integer frame indices, each
within the curve's bounds, that is strictly increasing in chronological
order; and it returns the empty list when the onset curve has fewer than 4
frames. -/
theorem dpBeatTrack_sound (onset : List ℚ) (periodFrames : ℚ)
    (hp : 0 < periodFrames) :
    (∀ b ∈ dynamicProgrammingBeatTrack onset periodFrames, b < onset.length) ∧
      List.Chain' (· < ·) (dynamicProgrammingBeatTrack onset periodFrames) ∧
      (onset.length < 4 → dynamicProgrammingBeatTrack onset periodFrames = []) := by
  by_cases hlen : onset.length < 4
  · rw [dynamicProgrammingBeatTrack, if_pos hlen]
    refine ⟨fun b hb => absurd hb (by simp), List.chain'_nil, fun _ => rfl⟩
  · rw [dynamicProgrammingBeatTrack, if_neg hlen]
    push_neg at hlen
    have hbe : dpBestEnd (dpState onset periodFrames (onset.length - 1)).1
        onset.length < onset.length := dpBestEnd_lt _ _ (by omega)
    have hbt := dpBacktrack_sound
      (dpState onset periodFrames (onset.length - 1)).2
      (dpState_pred onset periodFrames hp (onset.length - 1))
      (onset.length + 1)

      ((dpBestEnd (dpState onset periodFrames (onset.length - 1)).1
        onset.length : ℕ) : ℤ)
      (by push_cast; omega)
    refine ⟨?_, ?_, fun h => absurd h (by omega)⟩
    · intro b hb
      rw [List.mem_reverse] at hb
      have := hbt.2 b hb
      omega
    · rw [List.chain'_reverse]
      exact hbt.1

/-- Closed witness for `dpBeatTrack_sound` on a concrete 7-frame onset with
period 3. -/
theorem dpBeatTrack_sound_witness :
    (0 : ℚ) < 3 ∧
      ((∀ b ∈ dynamicProgrammingBeatTrack [1, 0, 0, 1, 0, 0, 1] 3,
          b < ([1, 0, 0, 1, 0, 0, 1] : List ℚ).length) ∧
        List.Chain' (· < ·) (dynamicProgrammingBeatTrack [1, 0, 0, 1, 0, 0, 1] 3) ∧
        (([1, 0, 0, 1, 0, 0, 1] : List ℚ).length < 4 →
          dynamicProgrammingBeatTrack [1, 0, 0, 1, 0, 0, 1] 3 = [])) :=
  ⟨by norm_num, dpBeatTrack_sound [1, 0, 0, 1, 0, 0, 1] 3 (by norm_num)⟩

/-! ### Spectral band analyzer and waveform summarizer
(`analyzeBands`, `normalizeBand`, `analyzeWaveformFromPcm`,
`LeftPanel.tsx` lines 356–404 and 915–1003) -/

/-- `analyzeBands` (`LeftPanel.tsx` lines 356–389): direct DFT magnitude
spectrum for bins `1..⌊N/2⌋`, bucketed by bin frequency into low (≤220 Hz),
mid (≤2400 Hz) and high (≤9000 Hz) sums, normalized by their total with the
`|| 1` zero guard. -/
def analyzeBands (ops : MathOps) (signal : List ℚ) (sampleRate : ℚ) :
    ℚ × ℚ × ℚ :=
  let fftSize := signal.length
  let sums := (List.range' 1 (fftSize / 2)).foldl
    (fun (acc : ℚ × ℚ × ℚ) (k : ℕ) =>
      let re := (List.range fftSize).foldl
        (fun s n => s + signal.getD n 0 *
          ops.cos (2 * ops.pi * (k : ℚ) * (n : ℚ) / (fftSize : ℚ))) 0
      let im := (List.range fftSize).foldl
        (fun s n => s - signal.getD n 0 *
          ops.sin (2 * ops.pi * (k : ℚ) * (n : ℚ) / (fftSize : ℚ))) 0
      let magnitude := ops.sqrt (re * re + im * im)
      let frequency := (k : ℚ) * sampleRate / (fftSize : ℚ)
      if frequency ≤ 220 then (acc.1 + magnitude, acc.2.1, acc.2.2)
      else if frequency ≤ 2400 then (acc.1, acc.2.1 + magnitude, acc.2.2)
      else if frequency ≤ 9000 then (acc.1, acc.2.1, acc.2.2 + magnitude)
      else acc) (0, 0, 0)
  let total := sums.1 + sums.2.1 + sums.2.2
  let sum := if total = 0 then 1 else total
  (sums.1 / sum, sums.2.1 / sum, sums.2.2 / sum)

/-- `normalizeBand` (`LeftPanel.tsx` lines 391–404): sort ascending, read the
nearest-rank 10th/90th percentiles (with `?? 0` / `?? 1` empty-array
defaults), clamp the span to 1e-6, affinely map to `[0,1]` and raise to the
0.72 gamma.  The percentile indices `Math.floor(length * 0.1)` /
`Math.floor(length * 0.9)` are computed in exact arithmetic. -/
def normalizeBand (ops : MathOps) (input : List ℚ) : List ℚ :=
  let sorted := input.mergeSort (fun a b => decide (a ≤ b))
  let p10 := sorted.getD (⌊(sorted.length : ℚ) * 0.1⌋).toNat 0
  let p90 := sorted.getD (⌊(sorted.length : ℚ) * 0.9⌋).toNat 1
  let span := max (1 / 1000000) (p90 - p10)
  input.map (fun x => ops.pow (clamp01 ((x - p10) / span)) 0.72)

/-- One onset frame (`LeftPanel.tsx` lines 468–492): run the four cascaded
one-pole filters over the frame's samples, accumulating the per-band absolute
values and the total energy.  Returns the new filter state and the five
accumulated sums `(low, midLow, mid, high, total)`. -/
def onsetFrame (lowA midLowA midA highA : ℚ) (mono : List ℚ) (start hop : ℕ)
    (st : ℚ × ℚ × ℚ × ℚ) : (ℚ × ℚ × ℚ × ℚ) × (ℚ × ℚ × ℚ × ℚ × ℚ) :=
  let endIdx := min (start + hop) mono.length
  (List.range' start (endIdx - start)).foldl
    (fun (acc : (ℚ × ℚ × ℚ × ℚ) × (ℚ × ℚ × ℚ × ℚ × ℚ)) i =>
      let sample := mono.getD i 0
      let st := acc.1
      let lowState := st.1 + lowA * (sample - st.1)
      let midLowState := st.2.1 + midLowA * (sample - st.2.1)
      let midState := st.2.2.1 + midA * (sample - st.2.2.1)
      let highState := st.2.2.2 + highA * (sample - st.2.2.2)
      let e := acc.2
      ((lowState, midLowState, midState, highState),
        (e.1 + |lowState|, e.2.1 + |midLowState - lowState|,
          e.2.2.1 + |midState - midLowState|,
          e.2.2.2.1 + |sample - midState|, e.2.2.2.2 + |sample|)))
    (st, (0, 0, 0, 0, 0))

/-- The raw per-frame onset values (`LeftPanel.tsx` lines 468–517): the
half-wave rectified band-energy increases with the fixed 2.5/1.8/1.0/0.5
weights plus the 0.1-weighted total energy, with filter state and previous
energies carried across frames. -/
def onsetRawGo (lowA midLowA midA highA : ℚ) (mono : List ℚ) (hop : ℕ) :
    ℕ → ℕ → (ℚ × ℚ × ℚ × ℚ) → (ℚ × ℚ × ℚ × ℚ) → List ℚ
  | 0, _, _, _ => []
  | n + 1, frame, st, prev =>
      let r := onsetFrame lowA midLowA midA highA mono (frame * hop) hop st
      let fl : ℚ :=
        ((max 1 (min (frame * hop + hop) mono.length - frame * hop) : ℕ) : ℚ)
      let lowE := r.2.1 / fl
      let midLowE := r.2.2.1 / fl
      let midE := r.2.2.2.1 / fl
      let highE := r.2.2.2.2.1 / fl
      let totE := r.2.2.2.2.2 / fl
      let onsetV := max 0 (lowE - prev.1) * 2.5 + max 0 (midLowE - prev.2.1) * 1.8 +
        max 0 (midE - prev.2.2.1) * 1 + max 0 (highE - prev.2.2.2) * 0.5 +
        totE * 0.1
      onsetV :: onsetRawGo lowA midLowA midA highA mono hop n (frame + 1) r.1
        (lowE, midLowE, midE, highE)

/-- The causal rolling z-score normalization (`LeftPanel.tsx` lines 519–540).
The source's ring buffer with running sum/sum-of-squares holds, at step `i`,
exactly the window `raw[max 0 (i+1-W) .. i]`; the sums are written out
directly here. -/
def onsetAdapted (ops : MathOps) (raw : List ℚ) (w : ℕ) : List ℚ :=
  (List.range raw.length).map (fun i =>
    let count := min (i + 1) w
    let lo := i + 1 - count
    let hsum := (List.range' lo count).foldl (fun s j => s + raw.getD j 0) 0
    let hsq := (List.range' lo count).foldl
      (fun s j => s + raw.getD j 0 * raw.getD j 0) 0
    let mean := hsum / (count : ℚ)
    let variance := max 0 (hsq / (count : ℚ) - mean * mean)
    let std := ops.sqrt variance + 1 / 100000000
    max 0 ((raw.getD i 0 - mean) / std))

/-- `computeMultiBandOnset` (`LeftPanel.tsx` lines 435–543).  With `hop = 0`
the JavaScript constructor `new Float32Array(Infinity)` would throw; here the
frame count is 0 and the empty curve is returned (that case is unreachable
from `analyzeBeatGrid`, which needs `sampleRate ≥ 200·2` worth of input to
proceed). -/
def computeMultiBandOnset (ops : MathOps) (mono : List ℚ) (sampleRate : ℚ)
    (hop : ℕ) : List ℚ :=
  let frameCount := mono.length / hop
  if frameCount < 2 then []
  else
    let lowA := 1 - ops.exp (-(2 * ops.pi * 200) / sampleRate)
    let midLowA := 1 - ops.exp (-(2 * ops.pi * 400) / sampleRate)
    let midA := 1 - ops.exp (-(2 * ops.pi * 2000) / sampleRate)
    let highA := 1 - ops.exp (-(2 * ops.pi * 8000) / sampleRate)
    let raw := onsetRawGo lowA midLowA midA highA mono hop frameCount 0
      (0, 0, 0, 0) (0, 0, 0, 0)
    onsetAdapted ops raw (max 8 ((⌊sampleRate / (hop : ℚ) / 8⌋).toNat))

/-- `monoSamples[i] ?? 0` for a possibly negative index. -/
def getSample (mono : List ℚ) (i : ℤ) : ℚ :=
  if i < 0 then 0 else mono.getD i.toNat 0

/-- `refineBeatsToSamples` (`LeftPanel.tsx` lines 700–753): snap each coarse
beat frame to the best sample in a `±0.8·hop` window under the
slope/peak/onset/proximity score, best score `-Infinity`-initialized. -/
def refineBeatsToSamples (beatFrames : List ℕ) (onset : List ℚ)
    (mono : List ℚ) (hop : ℕ) : List ℕ :=
  let searchRadius := (⌊(hop : ℚ) * 0.8⌋).toNat
  beatFrames.map (fun frame =>
    let approximateSample := frame * hop
    let searchStart := approximateSample - searchRadius
    let searchEnd := min (mono.length - 2) (approximateSample + searchRadius)
    ((List.range' searchStart (searchEnd - searchStart)).foldl
      (fun (best : ℕ × Option ℚ) s =>
        let current := |mono.getD s 0|
        let next := |mono.getD (s + 1) 0|
        let prev := |getSample mono ((s : ℤ) - 1)|
        let slope := next - prev
        let isPeak := prev ≤ current ∧ next ≤ current
        let frameIndex := s / hop
        let onsetWeight :=
          if frameIndex < onset.length then onset.getD frameIndex 0 else 0
        let proximityBonus :=
          1 - (|(s : ℚ) - (approximateSample : ℚ)| / (searchRadius : ℚ)) * 0.4
        let score := slope * 0.5 + (if isPeak then current * 0.3 else 0) +
          onsetWeight * 0.15 + proximityBonus * 0.05
        if gtOpt score best.2 then (s, some score) else best)
      (approximateSample, none)).1)

/-- The `while (offset > period) offset -= period` loop of
`regularizeBeatGrid` (`LeftPanel.tsx` lines 815–817).  The JavaScript loop
diverges for `period ≤ 0`; this translation stops there instead. -/
def subPeriod (offset period : ℚ) : ℚ :=
  if h : 0 < period ∧ period < offset then subPeriod (offset - period) period
  else offset
termination_by (⌈offset / period⌉).toNat
decreasing_by
  obtain ⟨hp, hlt⟩ := h
  have hy : (1 : ℚ) < offset / period := (one_lt_div hp).mpr hlt
  have h2 : (2 : ℤ) ≤ ⌈offset / period⌉ := by
    have h1 : (1 : ℤ) < ⌈offset / period⌉ := Int.lt_ceil.mpr (by exact_mod_cast hy)
    omega
  have hstep : ⌈(offset - period) / period⌉ = ⌈offset / period⌉ - 1 := by
    rw [sub_div, div_self (ne_of_gt hp), Int.ceil_sub_one]
  omega

/-- The `while (offset < 0) offset += period` loop of `regularizeBeatGrid`
(`LeftPanel.tsx` lines 818–820).  The JavaScript loop diverges for
`period ≤ 0`; this translation stops there instead. -/
def addPeriod (offset period : ℚ) : ℚ :=
  if h : 0 < period ∧ offset < 0 then addPeriod (offset + period) period
  else offset
termination_by (⌈-offset / period⌉).toNat
decreasing_by
  obtain ⟨hp, hneg⟩ := h
  have hy : (0 : ℚ) < -offset / period := div_pos (by linarith) hp
  have h1 : (1 : ℤ) ≤ ⌈-offset / period⌉ := by
    have := Int.lt_ceil.mpr (by exact_mod_cast hy : ((0 : ℤ) : ℚ) < -offset / period)
    omega
  have hstep : ⌈-(offset + period) / period⌉ = ⌈-offset / period⌉ - 1 := by
    rw [show -(offset + period) = -offset - period by ring, sub_div,
      div_self (ne_of_gt hp), Int.ceil_sub_one]
  omega

/-- `regularizeBeatGrid` (`LeftPanel.tsx` lines 755–823): IQR-filtered median
interval, OLS line fit over all beats, slope clamped to ±2% of the median,
intercept wrapped into `[0, period)`, then the two fix-up `while` loops. -/
def regularizeBeatGrid (beatSamples : List ℚ) (estimatedPeriodSamples : ℚ) :
    ℚ × ℚ :=
  if beatSamples.length < 4 then (beatSamples.getD 0 0, estimatedPeriodSamples)
  else
    let intervals := (List.range (beatSamples.length - 1)).map
      (fun i => beatSamples.getD (i + 1) 0 - beatSamples.getD i 0)
    let sorted := intervals.mergeSort (fun a b => decide (a ≤ b))
    let q1 := sorted.getD (⌊(sorted.length : ℚ) * 0.25⌋).toNat
      estimatedPeriodSamples
    let q3 := sorted.getD (⌊(sorted.length : ℚ) * 0.75⌋).toNat
      estimatedPeriodSamples
    let iqr := q3 - q1
    let lowerBound := q1 - 1.5 * iqr
    let upperBound := q3 + 1.5 * iqr
    let filteredIntervals := sorted.filter
      (fun x => decide (lowerBound ≤ x) && decide (x ≤ upperBound))
    let medianPeriod :=
      if 0 < filteredIntervals.length then
        filteredIntervals.getD (filteredIntervals.length / 2) 0
      else estimatedPeriodSamples
    let n := beatSamples.length
    let sumX := (List.range n).foldl (fun s (i : ℕ) => s + (i : ℚ)) 0
    let sumY := (List.range n).foldl
      (fun s (i : ℕ) => s + beatSamples.getD i 0) 0
    let sumXY := (List.range n).foldl
      (fun s (i : ℕ) => s + (i : ℚ) * beatSamples.getD i 0) 0
    let sumXX := (List.range n).foldl
      (fun s (i : ℕ) => s + (i : ℚ) * (i : ℚ)) 0
    let denom := (n : ℚ) * sumXX - sumX * sumX
    let base : ℚ × ℚ :=
      if 1 / 100000000 < |denom| then
        let slope := ((n : ℚ) * sumXY - sumX * sumY) / denom
        let intercept := (sumY - slope * sumX) / (n : ℚ)
        let period := clamp slope (medianPeriod * 0.98) (medianPeriod * 1.02)
        (period, wrap intercept period)
      else (medianPeriod, beatSamples.getD 0 0)
    (addPeriod (subPeriod base.2 base.1) base.1, base.1)

/-- `BeatAnalysis` (`waveformAnalysis` module, lines 275–280). -/
structure BeatAnalysis where
  bpm : Option ℚ
  bpmConfidence : ℚ
  beatOffset : ℚ
  beatsPerBar : ℕ
deriving DecidableEq

/-- `EMPTY_BEAT_ANALYSIS` (`waveformAnalysis` module, lines 282–287). -/
def EMPTY_BEAT_ANALYSIS : BeatAnalysis :=
  { bpm := none, bpmConfidence := 0, beatOffset := 0, beatsPerBar := 4 }

/-- `analyzeBeatGrid` (`LeftPanel.tsx` lines 825–913).  The alignment
`for` loop walking the synthetic grid is expressed by its iteration count
`⌈(len - offset)/period⌉` (0 when the period is nonpositive, where the
JavaScript loop would diverge — unreachable since the folded BPM is
positive whenever this point is reached). -/
def analyzeBeatGrid (ops : MathOps) (mono : List ℚ) (sampleRate : ℚ) :
    BeatAnalysis :=
  if (mono.length : ℚ) < sampleRate * 2 then EMPTY_BEAT_ANALYSIS
  else
    let hopSize := beatGridHopSize sampleRate
    let onset := computeMultiBandOnset ops mono sampleRate hopSize
    if onset.length < 100 then EMPTY_BEAT_ANALYSIS
    else
      let t := findBestTempo onset sampleRate hopSize
      let frameRate := sampleRate / (hopSize : ℚ)
      let bpm1 := foldBpm (60 * frameRate / t.periodFrames)
      let normalizedPeriod := 60 * frameRate / bpm1
      let beatFrames := dynamicProgrammingBeatTrack onset normalizedPeriod
      if beatFrames.length < 4 then
        { bpm := some bpm1, bpmConfidence := t.confidence * 0.5,
          beatOffset := 0, beatsPerBar := 4 }
      else
        let beatSamples := (refineBeatsToSamples beatFrames onset mono
          hopSize).map (fun s => (s : ℚ))
        let estimatedPeriodSamples := sampleRate * 60 / bpm1
        let rg := regularizeBeatGrid beatSamples estimatedPeriodSamples
        let bpm2 := foldBpm (sampleRate * 60 / rg.2)
        let finalPeriod := sampleRate * 60 / bpm2
        let finalOffset := wrap rg.1 finalPeriod
        let stepCount := if finalPeriod ≤ 0 then 0
          else (⌈((mono.length : ℚ) - finalOffset) / finalPeriod⌉).toNat
        let align := (List.range stepCount).foldl
          (fun (acc : ℚ × ℕ) j =>
            let beatSample := finalOffset + (j : ℚ) * finalPeriod
            let frameIdx := ⌊beatSample / (hopSize : ℚ)⌋
            if 0 ≤ frameIdx ∧ frameIdx < (onset.length : ℤ) then
              (acc.1 + onset.getD frameIdx.toNat 0, acc.2 + 1)
            else acc) (0, 0)
        let avgAlignment := if 0 < align.2 then align.1 / (align.2 : ℚ) else 0
        let alignmentConfidence := clamp01 (avgAlignment / 3)
        let confidence := clamp01 (t.confidence * 0.5 + alignmentConfidence * 0.5)
        { bpm := some bpm2, bpmConfidence := confidence,
          beatOffset := finalOffset / sampleRate, beatsPerBar := 4 }

/-- `samples = Math.min(resolution, monoSamples.length)`
(`LeftPanel.tsx` line 923): the number of output buckets. -/
def numBuckets (monoLen resolution : ℕ) : ℕ := min resolution monoLen

/-- `blockSize = Math.max(1, Math.floor(len / samples))`
(`LeftPanel.tsx` line 929). -/
def blockSizeOf (monoLen buckets : ℕ) : ℕ := max 1 (monoLen / buckets)

/-- The peak of bucket `i` (`LeftPanel.tsx` lines 938–950): max absolute
sample over a strided subsample of at most ~128 points of the block,
starting from 0. -/
def peakAt (mono : List ℚ) (resolution i : ℕ) : ℚ :=
  let blockSize := blockSizeOf mono.length (numBuckets mono.length resolution)
  let start := i * blockSize
  let endIdx := min (start + blockSize) mono.length
  let step := max 1 ((endIdx - start) / 128)
  (List.range' start ((endIdx - start + step - 1) / step) step).foldl
    (fun m s => max m |mono.getD s 0|) 0

/-- `peaks` as an array (`LeftPanel.tsx` line 996). -/
def peaksList (mono : List ℚ) (resolution : ℕ) : List ℚ :=
  (List.range (numBuckets mono.length resolution)).map (peakAt mono resolution)

/-- The centered, Hann-windowed 64-sample frame of bucket `i` and its
effective sample rate (`LeftPanel.tsx` lines 952–970). -/
def hannFrameAt (ops : MathOps) (mono : List ℚ) (sampleRate : ℚ)
    (resolution i : ℕ) : List ℚ × ℚ :=
  let blockSize := blockSizeOf mono.length (numBuckets mono.length resolution)
  let start := i * blockSize
  let endIdx := min (start + blockSize) mono.length
  let frameStride := max 1 ((endIdx - start) / 64)
  let frameCenter := (start + endIdx) / 2
  let frameStart := frameCenter - 32 * frameStride
  ((List.range 64).map (fun n =>
      let sourceIndex := min (mono.length - 1) (frameStart + n * frameStride)
      let window := 1 / 2 * (1 - ops.cos (2 * ops.pi * (n : ℚ) / 63))
      mono.getD sourceIndex 0 * window),
    sampleRate / (frameStride : ℚ))

/-- The raw (low, mid, high) channel triple of bucket `i`
(`LeftPanel.tsx` lines 970–974). -/
def rawBandAt (ops : MathOps) (mono : List ℚ) (sampleRate : ℚ)
    (resolution i : ℕ) : ℚ × ℚ × ℚ :=
  let fr := hannFrameAt ops mono sampleRate resolution i
  analyzeBands ops fr.1 fr.2

/-- The three percentile-normalized, gamma-shaped channels
(`LeftPanel.tsx` lines 977–979). -/
def lowNormList (ops : MathOps) (mono : List ℚ) (sampleRate : ℚ)
    (resolution : ℕ) : List ℚ :=
  normalizeBand ops ((List.range (numBuckets mono.length resolution)).map
    (fun i => (rawBandAt ops mono sampleRate resolution i).1))

def midNormList (ops : MathOps) (mono : List ℚ) (sampleRate : ℚ)
    (resolution : ℕ) : List ℚ :=
  normalizeBand ops ((List.range (numBuckets mono.length resolution)).map
    (fun i => (rawBandAt ops mono sampleRate resolution i).2.1))

def highNormList (ops : MathOps) (mono : List ℚ) (sampleRate : ℚ)
    (resolution : ℕ) : List ℚ :=
  normalizeBand ops ((List.range (numBuckets mono.length resolution)).map
    (fun i => (rawBandAt ops mono sampleRate resolution i).2.2))

/-- The 1.45-boosted channel values of bucket `i`
(`LeftPanel.tsx` lines 982–984). -/
def boostedBands (ops : MathOps) (mono : List ℚ) (sampleRate : ℚ)
    (resolution i : ℕ) : ℚ × ℚ × ℚ :=
  (ops.pow ((lowNormList ops mono sampleRate resolution).getD i 0) 1.45,
    ops.pow ((midNormList ops mono sampleRate resolution).getD i 0) 1.45,
    ops.pow ((highNormList ops mono sampleRate resolution).getD i 0) 1.45)

/-- The boosted channel sum of bucket `i` (the denominator of the final
renormalization is this plus 1e-6, `LeftPanel.tsx` line 985). -/
def boostedBandSum (ops : MathOps) (mono : List ℚ) (sampleRate : ℚ)
    (resolution i : ℕ) : ℚ :=
  (boostedBands ops mono sampleRate resolution i).1 +
    (boostedBands ops mono sampleRate resolution i).2.1 +
    (boostedBands ops mono sampleRate resolution i).2.2

/-- The final renormalized band triple of bucket `i`
(`LeftPanel.tsx` lines 985–989). -/
def bandTripleAt (ops : MathOps) (mono : List ℚ) (sampleRate : ℚ)
    (resolution i : ℕ) : ℚ × ℚ × ℚ :=
  let b := boostedBands ops mono sampleRate resolution i
  let denom := b.1 + b.2.1 + b.2.2 + 1 / 1000000
  (clamp01 (b.1 / denom), clamp01 (b.2.1 / denom), clamp01 (b.2.2 / denom))

/-- `bands` as a flat array of per-bucket triples (`LeftPanel.tsx`
lines 981–990 and 997). -/
def bandsList (ops : MathOps) (mono : List ℚ) (sampleRate : ℚ)
    (resolution : ℕ) : List ℚ :=
  ((List.range (numBuckets mono.length resolution)).map (fun i =>
    let t := bandTripleAt ops mono sampleRate resolution i
    [t.1, t.2.1, t.2.2])).flatten

/-- `WaveformPayload` of `src/shared/rpc.ts` at the analysis level:
rational samples, nullable bpm. -/
structure WaveformPayload where
  peaks : List ℚ
  bands : List ℚ
  bpm : Option ℚ
  bpmConfidence : ℚ
  beatOffset : ℚ
  beatsPerBar : ℕ
deriving DecidableEq

instance {ε α : Type*} [DecidableEq ε] [DecidableEq α] :
    DecidableEq (Except ε α) := fun a b =>
  match a, b with
  | Except.error e, Except.error f => decidable_of_iff (e = f) (by simp)
  | Except.error _, Except.ok _ => isFalse (by simp)
  | Except.ok _, Except.error _ => isFalse (by simp)
  | Except.ok x, Except.ok y => decidable_of_iff (x = y) (by simp)

/-- `analyzeWaveformFromPcm` (`LeftPanel.tsx` lines 915–1003).  The loop
checks the canceled set and reports progress at every bucket index divisible
by 256 (check before report); with the canceled set immutable during the run
this collapses to the entry check when at least one bucket exists.  The
result pairs the thrown-or-returned value with the list of progress values
emitted. -/
def analyzeWaveformFromPcm (ops : MathOps) (mono : List ℚ) (sampleRate : ℚ)
    (resolution : ℕ) (token : ℤ) (canceledTokens : List ℤ) :
    Except String WaveformPayload × List ℚ :=
  let samples := numBuckets mono.length resolution
  if 0 < samples ∧ token ∈ canceledTokens then
    (Except.error "analysis canceled", [])
  else
    let progress := ((List.range samples).filter (fun i => i % 256 = 0)).map
      (fun i => (i : ℚ) / (samples : ℚ))
    let beat := analyzeBeatGrid ops mono sampleRate
    (Except.ok
      { peaks := peaksList mono resolution
        bands := bandsList ops mono sampleRate resolution
        bpm := beat.bpm
        bpmConfidence := beat.bpmConfidence
        beatOffset := beat.beatOffset
        beatsPerBar := beat.beatsPerBar }, progress ++ [1])

/-- `AnalysisStage` (`waveformAnalysis` module, line 265). -/
inductive AnalysisStage
  | cache
  | probe
  | decode
  | analyze
deriving DecidableEq

/-- `analyzeWaveform` (`LeftPanel.tsx` lines 1005–1029): cancellation check,
probe progress, external decode (its result is an input here), cancellation
check, decode progress, the PCM analysis, final cancellation check.  The
result pairs the thrown-or-returned value with the `(stage, progress)`
events emitted. -/
def analyzeWaveform (ops : MathOps) (decoded : List ℚ × ℚ) (resolution : ℕ)
    (token : ℤ) (canceledTokens : List ℤ) :
    Except String WaveformPayload × List (AnalysisStage × ℚ) :=
  if token ∈ canceledTokens then (Except.error "analysis canceled", [])
  else
    let ev1 := [(AnalysisStage.probe, 1 / 4)]
    if token ∈ canceledTokens then (Except.error "analysis canceled", ev1)
    else
      let ev2 := ev1 ++ [(AnalysisStage.decode, 1)]
      let r := analyzeWaveformFromPcm ops decoded.1 decoded.2 resolution token
        canceledTokens
      let evs := ev2 ++ r.2.map (fun p => (AnalysisStage.analyze, p))
      match r.1 with
      | Except.error e => (Except.error e, evs)
      | Except.ok payload =>
          if token ∈ canceledTokens then (Except.error "analysis canceled", evs)
          else (Except.ok payload, evs)

/-- The `cancelWaveformAnalysis` RPC handler (`src/bun/index.ts`
lines 170–173): `canceledTokens.add(token)`. -/
def cancelWaveformAnalysis (canceledTokens : List ℤ) (token : ℤ) : List ℤ :=
  if token ∈ canceledTokens then canceledTokens else token :: canceledTokens

/-- `canceledTokens.delete(token)` at the top of the `analyzeWaveform` RPC
handler (`src/bun/index.ts` line 180). -/
def deleteToken (canceledTokens : List ℤ) (token : ℤ) : List ℤ :=
  canceledTokens.filter (fun t => decide (t ≠ token))

/-- The `analyzeWaveform` RPC handler (`src/bun/index.ts` lines 174–200):
delete the request's token from the canceled set, report `cache 0`, consult
the cache (abstracted as an optional pre-decoded payload; on a hit report
`cache 1` and return it), otherwise run the analysis against the pruned set.
Returns the response-with-events and the canceled set the analysis saw. -/
def handleAnalyzeWaveform (ops : MathOps) (canceledTokens : List ℤ)
    (cached : Option WaveformPayload) (decoded : List ℚ × ℚ)
    (resolution : ℕ) (token : ℤ) :
    (Except String WaveformPayload × List (AnalysisStage × ℚ)) × List ℤ :=
  let pruned := deleteToken canceledTokens token
  match cached with
  | some payload =>
      ((Except.ok payload,
        [(AnalysisStage.cache, 0), (AnalysisStage.cache, 1)]), pruned)
  | none =>
      let r := analyzeWaveform ops decoded resolution token pruned
      ((r.1, (AnalysisStage.cache, 0) :: r.2), pruned)

/-! ### Theorems about the summarizer and the orchestrator -/

lemma clamp01_nonneg (v : ℚ) : 0 ≤ clamp01 v :=
  le_min (by norm_num) (le_max_left 0 v)

lemma clamp01_le_one (v : ℚ) : clamp01 v ≤ 1 := min_le_left _ _

lemma clamp01_eq_self (v : ℚ) (h0 : 0 ≤ v) (h1 : v ≤ 1) : clamp01 v = v := by
  rw [clamp01, max_eq_right h0, min_eq_right h1]

lemma getD_abs_le_one (mono : List ℚ) (hs : ∀ s ∈ mono, |s| ≤ 1) (n : ℕ) :
    |mono.getD n 0| ≤ 1 := by
  by_cases h : n < mono.length
  · rw [List.getD_eq_getElem mono 0 h]
    exact hs _ (mono.getElem_mem h)
  · rw [List.getD_eq_default mono 0 (le_of_not_lt h)]
    norm_num

lemma peakAt_nonneg (mono : List ℚ) (resolution i : ℕ) :
    0 ≤ peakAt mono resolution i := by
  simp only [peakAt]
  refine foldl_preserve (fun m : ℚ => 0 ≤ m) _ _ _ le_rfl ?_
  intro a b _ ha
  exact le_trans ha (le_max_left _ _)

lemma peakAt_le_one (mono : List ℚ) (resolution i : ℕ)
    (hs : ∀ s ∈ mono, |s| ≤ 1) : peakAt mono resolution i ≤ 1 := by
  simp only [peakAt]
  refine foldl_preserve (fun m : ℚ => m ≤ 1) _ _ _ (by norm_num) ?_
  intro a b _ ha
  exact max_le ha (getD_abs_le_one mono hs b)

lemma analyzeWaveformFromPcm_ok (ops : MathOps) (mono : List ℚ)
    (sampleRate : ℚ) (resolution : ℕ) (token : ℤ) (cl : List ℤ)
    (h : token ∉ cl) :
    (analyzeWaveformFromPcm ops mono sampleRate resolution token cl).1 =
      Except.ok
        { peaks := peaksList mono resolution
          bands := bandsList ops mono sampleRate resolution
          bpm := (analyzeBeatGrid ops mono sampleRate).bpm
          bpmConfidence := (analyzeBeatGrid ops mono sampleRate).bpmConfidence
          beatOffset := (analyzeBeatGrid ops mono sampleRate).beatOffset
          beatsPerBar := (analyzeBeatGrid ops mono sampleRate).beatsPerBar } := by
  simp only [analyzeWaveformFromPcm]
  rw [if_neg (fun hc => h hc.2)]

lemma analyzeWaveformFromPcm_payload (ops : MathOps) (mono : List ℚ)
    (sampleRate : ℚ) (resolution : ℕ) (token : ℤ) (cl : List ℤ)
    (p : WaveformPayload) (evs : List ℚ)
    (hok : analyzeWaveformFromPcm ops mono sampleRate resolution token cl =
      (Except.ok p, evs)) :
    p.peaks = peaksList mono resolution ∧
      p.bands = bandsList ops mono sampleRate resolution := by
  rw [analyzeWaveformFromPcm] at hok
  split_ifs at hok with hc
  · exact absurd (congrArg Prod.fst hok) (by simp)
  · have h1 := congrArg Prod.fst hok
    simp only [Except.ok.injEq] at h1
    rw [← h1]
    exact ⟨rfl, rfl⟩

/-- **C2 (amended).** For every mono sample buffer, sample rate, and requested
resolution `N ≤` the buffer length, the payload a successful run of
`analyzeWaveformFromPcm` produces has a `peaks` array of exactly `N`
elements, every element is `≥ 0`, and — provided every input sample has
absolute value at most 1 — every element lies in `[0, 1]`.  (Without that
proviso the upper bound fails: the code never clamps peaks.) -/
theorem analyzeWaveformFromPcm_peaks (ops : MathOps) (mono : List ℚ)
    (sampleRate : ℚ) (resolution : ℕ) (token : ℤ) (cl : List ℤ)
    (p : WaveformPayload) (evs : List ℚ)
    (hok : analyzeWaveformFromPcm ops mono sampleRate resolution token cl =
      (Except.ok p, evs))
    (hres : resolution ≤ mono.length) (hs : ∀ s ∈ mono, |s| ≤ 1) :
    p.peaks.length = resolution ∧ ∀ x ∈ p.peaks, 0 ≤ x ∧ x ≤ 1 := by
  have hpk := (analyzeWaveformFromPcm_payload ops mono sampleRate resolution
    token cl p evs hok).1
  rw [hpk]
  constructor
  · rw [peaksList, List.length_map, List.length_range, numBuckets]
    exact Nat.min_eq_left hres
  · intro x hx
    rw [peaksList, List.mem_map] at hx
    obtain ⟨i, _, rfl⟩ := hx
    exact ⟨peakAt_nonneg mono resolution i, peakAt_le_one mono resolution i hs⟩

/-- The payload a full silent 4-sample analysis at resolution 2 produces. -/
def silentPayload2 : WaveformPayload :=
  { peaks := [0, 0], bands := [0, 0, 0, 0, 0, 0], bpm := none,
    bpmConfidence := 0, beatOffset := 0, beatsPerBar := 4 }

set_option maxHeartbeats 4000000 in
/-- Closed witness for `analyzeWaveformFromPcm_peaks`: the silent 4-sample
buffer at resolution 2. -/
theorem analyzeWaveformFromPcm_peaks_witness :
    ((2 : ℕ) ≤ 4) ∧ silentPayload2.peaks.length = 2 ∧
      ∀ x ∈ silentPayload2.peaks, 0 ≤ x ∧ x ≤ 1 :=
  ⟨by norm_num,
    analyzeWaveformFromPcm_peaks qOps [0, 0, 0, 0] 8000 2 0 [] silentPayload2
      [0, 1] (of_decide_eq_true (by with_unfolding_all rfl)) (by norm_num)
      (by intro s hs; fin_cases hs <;> norm_num)⟩

set_option maxHeartbeats 4000000 in
/-- **C2 (counterexample).** On the one-sample buffer `[2]` at resolution 1
the produced peaks array is `[2]`, whose element exceeds 1: the claim's
unconditional `peaks[i] ∈ [0,1]` fails for input samples outside `[-1, 1]`
(the code never clamps peaks). -/
theorem analyzeWaveformFromPcm_peak_above_one :
    ((analyzeWaveformFromPcm qOps [2] 8000 1 0 []).1.toOption.map
        WaveformPayload.peaks) = some [2] ∧ ¬ ((2 : ℚ) ≤ 1) :=
  ⟨of_decide_eq_true (by with_unfolding_all rfl), by norm_num⟩

lemma getD_map_range {α : Type*} (f : ℕ → α) (cnt i : ℕ) (hi : i < cnt)
    (d : α) : ((List.range cnt).map f).getD i d = f i := by
  have hlen : i < ((List.range cnt).map f).length := by simpa
  rw [List.getD_eq_getElem _ _ hlen]
  simp

lemma getD_flatten_triple (L : List (List ℚ)) (hL : ∀ l ∈ L, l.length = 3)
    (i j : ℕ) (hi : i < L.length) (hj : j < 3) :
    L.flatten.getD (3 * i + j) 0 = (L.getD i []).getD j 0 := by
  induction L generalizing i with
  | nil => cases hi
  | cons l L ih =>
      have hl : l.length = 3 := hL l (List.mem_cons_self _ _)
      cases i with
      | zero =>
          simp only [List.flatten_cons, Nat.mul_zero, Nat.zero_add,
            List.getD_cons_zero]
          exact List.getD_append _ _ _ _ (by omega)
      | succ i =>
          simp only [List.flatten_cons, List.getD_cons_succ]
          rw [List.getD_append_right _ _ _ _
            (by omega : l.length ≤ 3 * (i + 1) + j)]
          rw [show 3 * (i + 1) + j - l.length = 3 * i + j by omega]
          exact ih (fun x hx => hL x (List.mem_cons_of_mem l hx)) i
            (by simpa using Nat.lt_of_succ_lt_succ (by simpa using hi))

lemma normalizeBand_getD_nonneg (ops : MathOps)
    (hpow : ∀ x y : ℚ, 0 ≤ x → 0 ≤ ops.pow x y) (input : List ℚ) (i : ℕ) :
    0 ≤ (normalizeBand ops input).getD i 0 := by
  have hall : ∀ v ∈ normalizeBand ops input, 0 ≤ v := by
    intro v hv
    simp only [normalizeBand, List.mem_map] at hv
    obtain ⟨x, _, rfl⟩ := hv
    exact hpow _ _ (clamp01_nonneg _)
  by_cases h : i < (normalizeBand ops input).length
  · rw [List.getD_eq_getElem _ _ h]
    exact hall _ ((normalizeBand ops input).getElem_mem h)
  · rw [List.getD_eq_default _ _ (le_of_not_lt h)]

lemma boostedBands_nonneg (ops : MathOps)
    (hpow : ∀ x y : ℚ, 0 ≤ x → 0 ≤ ops.pow x y) (mono : List ℚ)
    (sampleRate : ℚ) (resolution i : ℕ) :
    0 ≤ (boostedBands ops mono sampleRate resolution i).1 ∧
      0 ≤ (boostedBands ops mono sampleRate resolution i).2.1 ∧
      0 ≤ (boostedBands ops mono sampleRate resolution i).2.2 :=
  ⟨hpow _ _ (normalizeBand_getD_nonneg ops hpow _ i),
    hpow _ _ (normalizeBand_getD_nonneg ops hpow _ i),
    hpow _ _ (normalizeBand_getD_nonneg ops hpow _ i)⟩

/-- **C3 (amended).** For every bucket `i` of a successful
`analyzeWaveformFromPcm` run (with a `**` operator that is nonnegative on
nonnegative bases, as IEEE `Math.pow` is), the band triple satisfies: each
component `≥ 0`, the triple sums to strictly less than 1, and the sum is
within 1e-3 of 1 *iff* the boosted channel sum of that bucket is at least
`1e-3 − 1e-6`.  The claim's unconditional "sum ≈ 1 (±1e-3)" fails for
buckets whose boosted channels are all tiny (e.g. silent input, where the
sum is 0). -/
theorem analyzeWaveformFromPcm_band_triples (ops : MathOps) (mono : List ℚ)
    (sampleRate : ℚ) (resolution : ℕ) (token : ℤ) (cl : List ℤ)
    (p : WaveformPayload) (evs : List ℚ) (i : ℕ)
    (hok : analyzeWaveformFromPcm ops mono sampleRate resolution token cl =
      (Except.ok p, evs))
    (hpow : ∀ x y : ℚ, 0 ≤ x → 0 ≤ ops.pow x y)
    (hi : i < numBuckets mono.length resolution) :
    0 ≤ p.bands.getD (3 * i) 0 ∧ 0 ≤ p.bands.getD (3 * i + 1) 0 ∧
      0 ≤ p.bands.getD (3 * i + 2) 0 ∧
      p.bands.getD (3 * i) 0 + p.bands.getD (3 * i + 1) 0 +
        p.bands.getD (3 * i + 2) 0 < 1 ∧
      (1 - (p.bands.getD (3 * i) 0 + p.bands.getD (3 * i + 1) 0 +
          p.bands.getD (3 * i + 2) 0) ≤ 1 / 1000 ↔
        1 / 1000 - 1 / 1000000 ≤ boostedBandSum ops mono sampleRate resolution i) := by
  have hbd := (analyzeWaveformFromPcm_payload ops mono sampleRate resolution
    token cl p evs hok).2
  rw [hbd, bandsList]
  have hlen3 : ∀ l ∈ (List.range (numBuckets mono.length resolution)).map
      (fun i => let t := bandTripleAt ops mono sampleRate resolution i
        [t.1, t.2.1, t.2.2]), l.length = 3 := by
    intro l hl
    rw [List.mem_map] at hl
    obtain ⟨j, _, rfl⟩ := hl
    rfl
  have hLlen : i < ((List.range (numBuckets mono.length resolution)).map
      (fun i => let t := bandTripleAt ops mono sampleRate resolution i
        [t.1, t.2.1, t.2.2])).length := by simpa
  have e0 := getD_flatten_triple _ hlen3 i 0 hLlen (by norm_num)
  have e1 := getD_flatten_triple _ hlen3 i 1 hLlen (by norm_num)
  have e2 := getD_flatten_triple _ hlen3 i 2 hLlen (by norm_num)
  rw [getD_map_range _ _ _ hi] at e0 e1 e2
  simp only [Nat.add_zero] at e0
  rw [e0, e1, e2]
  simp only [List.getD_cons_zero, List.getD_cons_succ]
  obtain ⟨hb1, hb2, hb3⟩ := boostedBands_nonneg ops hpow mono sampleRate
    resolution i
  simp only [bandTripleAt]
  set b := boostedBands ops mono sampleRate resolution i with hbdef
  have hsum : boostedBandSum ops mono sampleRate resolution i =
      b.1 + b.2.1 + b.2.2 := rfl
  set S := b.1 + b.2.1 + b.2.2 with hS
  have hS0 : 0 ≤ S := by rw [hS]; linarith
  have hden : (0 : ℚ) < S + 1 / 1000000 := by linarith
  have hc1 : clamp01 (b.1 / (S + 1 / 1000000)) = b.1 / (S + 1 / 1000000) :=
    clamp01_eq_self _ (div_nonneg hb1 hden.le)
      ((div_le_one hden).mpr (by rw [hS]; linarith))
  have hc2 : clamp01 (b.2.1 / (S + 1 / 1000000)) = b.2.1 / (S + 1 / 1000000) :=
    clamp01_eq_self _ (div_nonneg hb2 hden.le)
      ((div_le_one hden).mpr (by rw [hS]; linarith))
  have hc3 : clamp01 (b.2.2 / (S + 1 / 1000000)) = b.2.2 / (S + 1 / 1000000) :=
    clamp01_eq_self _ (div_nonneg hb3 hden.le)
      ((div_le_one hden).mpr (by rw [hS]; linarith))
  rw [hc1, hc2, hc3]
  have htot : b.1 / (S + 1 / 1000000) + b.2.1 / (S + 1 / 1000000) +
      b.2.2 / (S + 1 / 1000000) = S / (S + 1 / 1000000) := by
    rw [div_add_div_same, div_add_div_same, hS]
  refine ⟨div_nonneg hb1 hden.le, div_nonneg hb2 hden.le,
    div_nonneg hb3 hden.le, ?_, ?_⟩
  · rw [htot]
    exact (div_lt_one hden).mpr (by linarith)
  · rw [htot, hsum]
    rw [one_sub_div (ne_of_gt hden), div_le_iff₀ hden]
    constructor
    · intro h
      linarith
    · intro h
      linarith

/-- The payload a full silent 4-sample analysis at resolution 1 produces. -/
def silentPayload1 : WaveformPayload :=
  { peaks := [0], bands := [0, 0, 0], bpm := none,
    bpmConfidence := 0, beatOffset := 0, beatsPerBar := 4 }

set_option maxHeartbeats 4000000 in
/-- Closed witness for `analyzeWaveformFromPcm_band_triples`: bucket 0 of the
silent 4-sample buffer at resolution 1. -/
theorem analyzeWaveformFromPcm_band_triples_witness :
    (∀ x y : ℚ, 0 ≤ x → 0 ≤ qOps.pow x y) ∧
      (0 ≤ silentPayload1.bands.getD 0 0 ∧
        0 ≤ silentPayload1.bands.getD 1 0 ∧
        0 ≤ silentPayload1.bands.getD 2 0 ∧
        silentPayload1.bands.getD 0 0 + silentPayload1.bands.getD 1 0 +
          silentPayload1.bands.getD 2 0 < 1 ∧
        (1 - (silentPayload1.bands.getD 0 0 + silentPayload1.bands.getD 1 0 +
            silentPayload1.bands.getD 2 0) ≤ 1 / 1000 ↔
          1 / 1000 - 1 / 1000000 ≤ boostedBandSum qOps [0, 0, 0, 0] 8000 1 0)) :=
  ⟨fun _ _ _ => le_refl 0,
    by
      have h := analyzeWaveformFromPcm_band_triples qOps [0, 0, 0, 0] 8000 1 0
        [] silentPayload1 [0, 1] 0 (of_decide_eq_true (by with_unfolding_all rfl))
        (fun _ _ _ => le_refl 0) (by norm_num [numBuckets])
      simpa using h⟩

set_option maxHeartbeats 4000000 in
/-- **C3 (counterexample).** On the silent 4-sample buffer at resolution 1
the produced band triple is `[0, 0, 0]`: its sum 0 is not within 1e-3 of 1,
refuting the claim's unconditional normalization property. -/
theorem analyzeWaveformFromPcm_bands_zero_on_silence :
    ((analyzeWaveformFromPcm qOps [0, 0, 0, 0] 8000 1 0 []).1.toOption.map
        WaveformPayload.bands) = some [0, 0, 0] ∧
      ¬ (|((0 : ℚ) + 0 + 0) - 1| ≤ 1 / 1000) :=
  ⟨of_decide_eq_true (by with_unfolding_all rfl), by norm_num⟩

/-- **C8.** If the analysis token is a member of the canceled-token set when
`analyzeWaveform` is invoked (the embedding's set is immutable during the
run, matching the claim's proviso), the call yields the cancellation error
with *no* progress events emitted and no result payload. -/
theorem analyzeWaveform_precanceled (ops : MathOps) (decoded : List ℚ × ℚ)
    (resolution : ℕ) (token : ℤ) (canceledTokens : List ℤ)
    (h : token ∈ canceledTokens) :
    analyzeWaveform ops decoded resolution token canceledTokens =
      (Except.error "analysis canceled", []) := by
  rw [analyzeWaveform, if_pos h]

/-- Closed witness for `analyzeWaveform_precanceled` at token 1 with
canceled set `[1]`. -/
theorem analyzeWaveform_precanceled_witness :
    (1 : ℤ) ∈ [(1 : ℤ)] ∧
      analyzeWaveform qOps ([], 0) 0 1 [1] =
        (Except.error "analysis canceled", []) :=
  ⟨List.mem_singleton.mpr rfl,
    analyzeWaveform_precanceled qOps ([], 0) 0 1 [1]
      (List.mem_singleton.mpr rfl)⟩

lemma analyzeWaveform_ok (ops : MathOps) (decoded : List ℚ × ℚ)
    (resolution : ℕ) (token : ℤ) (cl : List ℤ) (h : token ∉ cl) :
    ∃ p, (analyzeWaveform ops decoded resolution token cl).1 =
      Except.ok p := by
  simp only [analyzeWaveform]
  rw [analyzeWaveformFromPcm_ok ops decoded.1 decoded.2 resolution token cl h]
  simp only [if_neg h]
  exact ⟨_, rfl⟩

/-- **C9.** The `analyzeWaveform` RPC handler removes the request's token
from the canceled-token set before the cache lookup or analysis: the set the
run sees never contains the token, and consequently a cancellation recorded
for the token before the request began never aborts the new request — the
handler's response is always a payload, never the cancellation error. -/
theorem handleAnalyzeWaveform_clears_prior_cancellation (ops : MathOps)
    (canceledTokens : List ℤ) (cached : Option WaveformPayload)
    (decoded : List ℚ × ℚ) (resolution : ℕ) (token : ℤ) :
    token ∉ (handleAnalyzeWaveform ops canceledTokens cached decoded
        resolution token).2 ∧
      ∃ payload,
        (handleAnalyzeWaveform ops canceledTokens cached decoded resolution
            token).1.1 = Except.ok payload := by
  have hmem : token ∉ deleteToken canceledTokens token := by
    simp [deleteToken]
  constructor
  · cases cached with
    | some p => simpa [handleAnalyzeWaveform] using hmem
    | none => simpa [handleAnalyzeWaveform] using hmem
  · cases cached with
    | some p => exact ⟨p, rfl⟩
    | none =>
        obtain ⟨q, hq⟩ := analyzeWaveform_ok ops decoded resolution token _
          hmem
        exact ⟨q, by simpa [handleAnalyzeWaveform] using hq⟩

end Analysis
